import Mathlib

/-!
Verification of the Shapes library: a shallow embedding of the Shape AST and
its compiled transforms (instance check, structural equality, validator, the
DynamoDB attribute codec, the JSON codec, the update-expression alias
namespace, and the metadata merge), translated from the TypeScript sources,
together with theorems settling the specification claims.

Modelling conventions for the JavaScript runtime:
- JavaScript values are modelled by the inductive JsVal below.  Numbers are
  restricted to integers plus NaN (the library only renders and parses
  integral numeric strings in the cases the claims exercise); fractional
  parsing is not modelled.  Object identity is not modelled: the strict
  equality operator on two composite values is modelled as false, which
  matches every pair of distinct objects and loses only reference-equal pairs.
- A thrown JavaScript exception is modelled by Except.error carrying the
  message; ordinary returns are Except.ok.
- JavaScript object property access v[k] is total except on undefined and
  null, where it throws a TypeError, exactly as in the runtime.
-/

inductive JsVal where
  | vstr (s : String)
  | vint (n : Int)
  | vnan
  | vbool (b : Bool)
  | vundef
  | vnull
  | vbuf (bytes : List Nat)
  | vdate (ms : Option Int)
  | vobj (fields : List (String × JsVal))
  | varr (items : List JsVal)
  | vset (items : List JsVal)
deriving Repr

abbrev JsResult (α : Type) := Except String α

/-- Model of the JavaScript typeof operator on the values of the model. -/
def typeOf : JsVal → String
  | .vstr _ => "string"
  | .vint _ => "number"
  | .vnan => "number"
  | .vbool _ => "boolean"
  | .vundef => "undefined"
  | .vnull => "object"
  | .vbuf _ => "object"
  | .vdate _ => "object"
  | .vobj _ => "object"
  | .varr _ => "object"
  | .vset _ => "object"

/-- Model of JavaScript strict equality (the === operator).  Primitive values
compare by value, NaN is unequal to everything including itself, and composite
values compare by reference; since the model has no object identity, strict
equality on composites is modelled as false (true only for reference-equal
objects, which the model cannot distinguish). -/
def jsEq : JsVal → JsVal → Bool
  | .vstr a, .vstr b => a == b
  | .vint a, .vint b => a == b
  | .vbool a, .vbool b => a == b
  | .vundef, .vundef => true
  | .vnull, .vnull => true
  | _, _ => false

/-- Model of the SameValueZero comparison used by JavaScript Set membership:
like strict equality but NaN matches NaN.  Buffers are compared byte-wise to
model the value-hashed HashSet used for binary sets (HashSet is not under
src/); other composites keep the no-identity convention. -/
def sameValueZero : JsVal → JsVal → Bool
  | .vnan, .vnan => true
  | .vbuf a, .vbuf b => a == b
  | a, b => jsEq a b

def isUndef : JsVal → Bool
  | .vundef => true
  | _ => false

/-- Model of property access value[key]: throws a TypeError on undefined and
null, yields the property of a plain object (undefined when absent), and
yields undefined for every other receiver and the keys used by the library. -/
def jsGet : JsVal → String → JsResult JsVal
  | .vundef, _ => .error "TypeError: cannot read properties of undefined"
  | .vnull, _ => .error "TypeError: cannot read properties of null"
  | .vobj fs, k => .ok (match fs.lookup k with | some v => v | none => .vundef)
  | _, _ => .ok (.vundef)

/-- Total variant of jsGet for receivers known to be plain objects. -/
def objGet (fs : List (String × JsVal)) (k : String) : JsVal :=
  match fs.lookup k with
  | some v => v
  | none => (.vundef)

/-- Model of Object.entries: own enumerable string-keyed entries.  Arrays
expose index-keyed entries, strings are not objects but are indexable (the
library only applies this under a typeof object guard), and undefined and
null throw.  Buffer index properties, like set and date internals, are not
modelled as enumerable entries. -/
def jsEntries : JsVal → JsResult (List (String × JsVal))
  | .vundef => .error "TypeError: cannot convert undefined to object"
  | .vnull => .error "TypeError: cannot convert null to object"
  | .vobj fs => .ok fs
  | .varr xs => .ok ((xs.enum).map fun (i, x) => (toString i, x))
  | _ => .ok []

/-- Model of Object.keys, derived from Object.entries. -/
def jsKeys (v : JsVal) : JsResult (List String) :=
  (jsEntries v).map (List.map Prod.fst)

/-- Model of the length property: strings, buffers and arrays have one, every
other value yields undefined (modelled as none). -/
def jsLengthOpt : JsVal → Option Nat
  | .vstr s => some s.length
  | .vbuf bs => some bs.length
  | .varr xs => some xs.length
  | _ => none

/-- Model of indexed access v[i] on indexable values. -/
def jsIndex : JsVal → Nat → JsVal
  | .varr xs, i => (xs.getD i .vundef)
  | .vstr s, i => if h : i < s.length then .vstr (String.singleton (s.data.get ⟨i, h⟩)) else .vundef
  | .vbuf bs, i => if i < bs.length then .vint (bs.getD i 0) else .vundef
  | _, _ => (.vundef)

/-- Model of the JavaScript Set constructor: keeps the first occurrence of
each element under SameValueZero. -/
def jsNewSetAux : List JsVal → List JsVal → List JsVal
  | seen, [] => seen.reverse
  | seen, x :: xs =>
    if seen.any (fun y => sameValueZero y x) then jsNewSetAux seen xs
    else jsNewSetAux (x :: seen) xs

def jsNewSet (xs : List JsVal) : List JsVal := jsNewSetAux [] xs

/-- Decimal digits of a natural number, least significant first; empty for 0. -/
def natDigits (n : Nat) : List Nat :=
  if h : n = 0 then [] else n % 10 :: natDigits (n / 10)
decreasing_by exact Nat.div_lt_self (Nat.pos_of_ne_zero h) (by omega)

def digitChar : Nat → Char
  | 0 => '0' | 1 => '1' | 2 => '2' | 3 => '3' | 4 => '4'
  | 5 => '5' | 6 => '6' | 7 => '7' | 8 => '8' | _ => '9'

def charVal (c : Char) : Nat := c.toNat - 48

/-- Model of the decimal rendering used by JavaScript toString(10) on a
natural number. -/
def natToString (n : Nat) : String :=
  if n = 0 then "0" else String.mk ((natDigits n).reverse.map digitChar)

/-- Model of the decimal rendering used by JavaScript toString(10) on an
integral number value. -/
def intToString (n : Int) : String :=
  if n < 0 then "-" ++ natToString n.natAbs else natToString n.natAbs

/-- Value of a most-significant-first digit-character list. -/
def digitsVal (cs : List Char) : Nat :=
  cs.foldl (fun a c => 10 * a + charVal c) 0

/-- Longest leading run of decimal digit characters. -/
def leadingDigits (cs : List Char) : List Char :=
  cs.takeWhile Char.isDigit

/-- Model of the base-10 part of JavaScript parseInt: optional sign, then the
longest leading digit run; none models NaN.  Leading whitespace and a leading
plus sign never occur on the wire strings the library produces and are not
modelled. -/
def jsParseIntOpt (s : String) : Option Int :=
  if s.data.head? = some '-' then
    if (leadingDigits s.data.tail).isEmpty then none
    else some (-(digitsVal (leadingDigits s.data.tail) : Int))
  else
    if (leadingDigits s.data).isEmpty then none
    else some ((digitsVal (leadingDigits s.data) : Int))

/-- Model of JavaScript parseFloat restricted to the integral numeric strings
of the model; fractional syntax is not modelled (the codec only ever parses
strings it rendered from integral numbers in the cases the claims exercise). -/
def jsParseFloatOpt (s : String) : Option Int := jsParseIntOpt s

/-- The Shape AST: the variant tree of type descriptions (collection.ts,
primitive.ts, enum.ts, literal.ts, struct.ts, union.ts, function.ts).  Enum
shapes are modelled by the ordered list of their underlying literal string
values (Object.values of the name-to-value mapping); Struct fields are the
ordered field list; metadata attachments are not modelled (the shapes the
claims exercise carry none, so their decorated validator lists are empty). -/
inductive Shape where
  | boolShape
  | stringShape
  | numberShape
  | integerShape
  | binaryShape
  | timestampShape
  | anyShape
  | nothingShape
  | neverShape
  | enumShape (values : List String)
  | literalShape (type : Shape) (value : JsVal)
  | arrayShape (items : Shape)
  | setShape (items : Shape)
  | mapShape (items : Shape)
  | structShape (fields : List (String × Shape))
  | unionShape (items : List Shape)
  | functionShape
deriving Repr

/-- The Kind discriminant string carried by each Shape class. -/
def kindOf : Shape → String
  | .boolShape => "boolShape"
  | .stringShape => "stringShape"
  | .numberShape => "numberShape"
  | .integerShape => "integerShape"
  | .binaryShape => "binaryShape"
  | .timestampShape => "timestampShape"
  | .anyShape => "anyShape"
  | .nothingShape => "nothingShape"
  | .neverShape => "neverShape"
  | .enumShape _ => "enumShape"
  | .literalShape _ _ => "literalShape"
  | .arrayShape _ => "arrayShape"
  | .setShape _ => "setShape"
  | .mapShape _ => "mapShape"
  | .structShape _ => "structShape"
  | .unionShape _ => "unionShape"
  | .functionShape => "functionShape"

def isNothingShape : Shape → Bool
  | .nothingShape => true
  | _ => false

/-- Modelled from the spec: isOptional (exported by tbe core package but not
under src/) recognises the representation of optionality, a Union containing
the Nothing scalar among its variants. -/
def isOptional : Shape → Bool
  | .unionShape items => items.any isNothingShape
  | _ => false

/-- Lookup of a property on a receiver known not to be undefined or null;
used only where the source has already excluded those receivers. -/
def jsGetLoose (v : JsVal) (k : String) : JsVal :=
  match jsGet v k with
  | .ok x => x
  | .error _ => (.vundef)

/-- Model of Equals.Visitor.binaryShape: compares the length properties, then
the bytes via readUInt8.  Receivers without a length property both yield
undefined, which the strict inequality check does not distinguish, so the
byte loop runs zero times and the comparison succeeds; a non-Buffer receiver
with a positive length would throw on readUInt8. -/
def binaryEquals (a b : JsVal) : JsResult Bool :=
  match jsLengthOpt a, jsLengthOpt b with
  | none, none => .ok true
  | some la, some lb =>
    if la ≠ lb then .ok false
    else if la = 0 then .ok true
    else
      match a, b with
      | .vbuf as, .vbuf bs => .ok (as == bs)
      | _, _ => .error "TypeError: readUInt8 is not a function"
  | _, _ => .ok false

/-- Model of Equals.Visitor.setShape: compares the size properties, then
membership of each element of a in b (reference-based has, modelled by
SameValueZero without object identity).  Item equality is never consulted.
Receivers without a size property both yield undefined, the size check
passes, and the values() call then throws. -/
def setEquals (a b : JsVal) : JsResult Bool :=
  match a, b with
  | .vset as, .vset bs =>
    if as.length ≠ bs.length then .ok false
    else .ok (as.all fun v => bs.any fun w => sameValueZero w v)
  | .vset _, _ => .ok false
  | _, .vset _ => .ok false
  | _, _ => .error "TypeError: a.values is not a function"

mutual

/-- Model of the deep structural comparison compiled for the Any shape
(Equals.Visitor.anyShape).  The object branch walks the own entries of the
first operand in key order, which coincides with the Object.keys walk of the
source for every JavaScript-representable object. -/
def anyEquals (a b : JsVal) : JsResult Bool :=
  if typeOf a ≠ typeOf b then .ok false
  else if typeOf a == "undefined" then .ok true
  else if typeOf a == "string" || typeOf a == "number" || typeOf a == "boolean" then .ok (jsEq a b)
  else
    match a, b with
    | .varr as, .varr bs =>
      if as.length ≠ bs.length then .ok false
      else anyEqualsItems as bs
    | .varr _, _ => .ok false
    | _, .varr _ => .ok false
    | .vobj aFs, _ => do
      let bKeys ← jsKeys b
      if aFs.length ≠ bKeys.eraseDups.length then .ok false
      else anyEqualsFields aFs b bKeys
    | .vnull, _ => .error "TypeError: cannot convert null to object"
    | _, _ => do
      let bKeys ← jsKeys b
      if 0 ≠ bKeys.eraseDups.length then .ok false
      else .ok true
termination_by sizeOf a

def anyEqualsItems : List JsVal → List JsVal → JsResult Bool
  | [], _ => .ok true
  | x :: xs, ys => do
    let e ← anyEquals x (ys.headD .vundef)
    if e then anyEqualsItems xs (ys.tailD []) else .ok false
termination_by xs _ => sizeOf xs

def anyEqualsFields : List (String × JsVal) → JsVal → List String → JsResult Bool
  | [], _, _ => .ok true
  | (k, av) :: rest, b, bKeys =>
    if !bKeys.contains k then .ok false
    else do
      let bv ← jsGet b k
      let e ← anyEquals av bv
      if e then anyEqualsFields rest b bKeys else .ok false
termination_by l _ _ => sizeOf l

end

mutual

/-- Model of the compiled instance check, IsInstance.of (IsInstanceVisitor).
The deep option of IsInstanceProps is accepted but never consulted by the
visitor, so it is omitted.  The typeof object guards admit null, and the
subsequent property walks then throw, exactly as in the runtime. -/
def isInstance (s : Shape) (a : JsVal) : JsResult Bool :=
  match s with
  | .enumShape vs => .ok (match a with | .vstr str => vs.contains str | _ => false)
  | .arrayShape item =>
    match a with
    | .varr xs => isInstanceItemsAll item xs
    | _ => .ok false
  | .binaryShape => .ok (match a with | .vbuf _ => true | .vstr _ => true | _ => false)
  | .boolShape => .ok (typeOf a == "boolean")
  | .structShape fields =>
    if typeOf a == "object" then isInstanceFields fields a else .ok false
  | .anyShape => .ok true
  | .functionShape => .ok false
  | .integerShape => .ok (typeOf a == "number")
  | .literalShape t v => do
    let ty ← isInstance t a
    if ty then equalsOf t a v else .ok false
  | .mapShape item =>
    if typeOf a == "object" then do
      let es ← jsEntries a
      isInstanceMapValues item es
    else .ok false
  | .neverShape => .ok false
  | .nothingShape => .ok (match a with | .vundef => true | .vnull => true | _ => false)
  | .numberShape => .ok (typeOf a == "number")
  | .setShape item =>
    match a with
    | .vset xs => do
      let _ ← isInstanceSetItems item xs
      .ok false
    | _ => .ok false
  | .stringShape => .ok (typeOf a == "string")
  | .timestampShape => .ok (match a with | .vdate _ => true | _ => false)
  | .unionShape items => isInstanceUnion items a
termination_by (sizeOf s, 0, 0)

/-- Struct field walk of the instance check: every declared field must
conform; extra keys are ignored; short-circuits on the first failure. -/
def isInstanceFields (fields : List (String × Shape)) (a : JsVal) : JsResult Bool :=
  match fields with
  | [] => .ok true
  | (n, s) :: rest => do
    let v ← jsGet a n
    let b ← isInstance s v
    if b then isInstanceFields rest a else .ok false
termination_by (sizeOf fields, 1, 0)

/-- Array item walk of the instance check: the source filters the whole array
for nonconforming items, so every item is checked with no short-circuit. -/
def isInstanceItemsAll (s : Shape) (xs : List JsVal) : JsResult Bool :=
  match xs with
  | [] => .ok true
  | x :: rest => do
    let b ← isInstance s x
    let bs ← isInstanceItemsAll s rest
    .ok (b && bs)
termination_by (sizeOf s, 1, sizeOf xs)

/-- Set item walk of the instance check: a for-of loop returning false at the
first nonconforming item.  The enclosing setShape handler falls through to
return false even when the walk completes (the slip settled by claim C3). -/
def isInstanceSetItems (s : Shape) (xs : List JsVal) : JsResult Bool :=
  match xs with
  | [] => .ok true
  | x :: rest => do
    let b ← isInstance s x
    if b then isInstanceSetItems s rest else .ok false
termination_by (sizeOf s, 1, sizeOf xs)

/-- Map entry walk of the instance check: every entry value must conform;
keys of the model are always strings, so the non-string-key rejection of the
source never fires; short-circuits on the first failure. -/
def isInstanceMapValues (s : Shape) (es : List (String × JsVal)) : JsResult Bool :=
  match es with
  | [] => .ok true
  | (_, v) :: rest => do
    let b ← isInstance s v
    if b then isInstanceMapValues s rest else .ok false
termination_by (sizeOf s, 1, sizeOf es)

/-- Union walk of the instance check: conforms when some variant conforms. -/
def isInstanceUnion (items : List Shape) (a : JsVal) : JsResult Bool :=
  match items with
  | [] => .ok false
  | s :: rest => do
    let b ← isInstance s a
    if b then .ok true else isInstanceUnion rest a
termination_by (sizeOf items, 1, 0)

/-- Model of the compiled structural equality, Equals.of (Equals.Visitor). -/
def equalsOf (s : Shape) (a b : JsVal) : JsResult Bool :=
  match s with
  | .enumShape _ => .ok (jsEq a b)
  | .literalShape t _ => equalsOf t a b
  | .unionShape items =>
    if jsEq a b then .ok true else equalsUnionLoop items a b
  | .neverShape => .ok false
  | .functionShape => .ok (jsEq a b && false)
  | .nothingShape => .ok (jsEq a b && isUndef a)
  | .anyShape => anyEquals a b
  | .binaryShape => binaryEquals a b
  | .arrayShape item =>
    match jsLengthOpt a, jsLengthOpt b with
    | none, none => .ok true
    | some la, some lb =>
      if la ≠ lb then .ok false else equalsArrayLoop item a b (List.range la)
    | _, _ => .ok false
  | .boolShape => .ok (jsEq a b)
  | .structShape fields => do
    let aKs ← jsKeys a
    let bKs ← jsKeys b
    if aKs.length ≠ bKs.length then .ok false
    else equalsStructKeys fields aKs a b
  | .mapShape item => do
    let aKs ← jsKeys a
    let bKs ← jsKeys b
    if aKs.length ≠ bKs.length then .ok false
    else equalsMapKeys item aKs a b
  | .numberShape => .ok (jsEq a b)
  | .integerShape =>
    .error "TypeError: visitor.integerShape is not a function"
  | .setShape _ => setEquals a b
  | .stringShape => .ok (jsEq a b)
  | .timestampShape =>
    match a, b with
    | .vdate (some x), .vdate (some y) => .ok (x == y)
    | .vdate _, .vdate _ => .ok false
    | _, _ => .error "TypeError: a.getTime is not a function"
termination_by (sizeOf s, 0, 0)

/-- Union walk of the compiled equality: the first variant both operands
conform to decides; no variant shared by both operands means unequal. -/
def equalsUnionLoop (items : List Shape) (a b : JsVal) : JsResult Bool :=
  match items with
  | [] => .ok false
  | s :: rest => do
    let ta ← isInstance s a
    if ta then do
      let tb ← isInstance s b
      if tb then equalsOf s a b else equalsUnionLoop rest a b
    else equalsUnionLoop rest a b
termination_by (sizeOf items, 1, 0)

/-- Index walk of the compiled array equality; short-circuits on the first
mismatching index. -/
def equalsArrayLoop (s : Shape) (a b : JsVal) (idxs : List Nat) : JsResult Bool :=
  match idxs with
  | [] => .ok true
  | i :: rest => do
    let e ← equalsOf s (jsIndex a i) (jsIndex b i)
    if e then equalsArrayLoop s a b rest else .ok false
termination_by (sizeOf s, 1, sizeOf idxs)

/-- Key walk of the compiled struct equality, over the own keys of the first
operand: a pair of explicitly undefined values short-circuits to unequal, a
key outside the declared fields finds no compiled field equality and throws,
and otherwise the declared field equality decides, short-circuiting on the
first mismatch. -/
def equalsStructKeys (fields : List (String × Shape)) (ks : List String) (a b : JsVal) : JsResult Bool :=
  match ks with
  | [] => .ok true
  | k :: rest =>
    let aV := jsGetLoose a k
    let bV := jsGetLoose b k
    if isUndef aV && isUndef bV then .ok false
    else do
      let e ← equalsFieldLookup fields k aV bV
      if e then equalsStructKeys fields rest a b else .ok false
termination_by (sizeOf fields, 2, sizeOf ks)

/-- Dispatch of the compiled struct equality to the field named k; field
names are unique within a Struct, so first match suffices. -/
def equalsFieldLookup (fields : List (String × Shape)) (k : String) (av bv : JsVal) : JsResult Bool :=
  match fields with
  | [] => .error "TypeError: fields[aKey] is not a function"
  | (n, s) :: rest =>
    if n == k then equalsOf s av bv else equalsFieldLookup rest k av bv
termination_by (sizeOf fields, 1, 0)

/-- Key walk of the compiled map equality, over the own keys of the first
operand: a key absent from the second operand is unequal, and otherwise the
item equality decides, short-circuiting on the first mismatch. -/
def equalsMapKeys (s : Shape) (ks : List String) (a b : JsVal) : JsResult Bool :=
  match ks with
  | [] => .ok true
  | k :: rest =>
    let aV := jsGetLoose a k
    let bV := jsGetLoose b k
    if isUndef bV then .ok false
    else do
      let e ← equalsOf s aV bV
      if e then equalsMapKeys s rest a b else .ok false
termination_by (sizeOf s, 1, sizeOf ks)

end

mutual

/-- Model of JavaScript string coercion as used in template literals and the
toString method; composite renderings are approximated by stable tags (the
claims never compare them). -/
def jsDisplay : JsVal → String
  | .vstr s => s
  | .vint n => intToString n
  | .vnan => "NaN"
  | .vbool b => if b then "true" else "false"
  | .vundef => "undefined"
  | .vnull => "null"
  | .vbuf _ => "[object Buffer]"
  | .vdate _ => "[object Date]"
  | .vobj _ => "[object Object]"
  | .varr xs => jsDisplayList xs
  | .vset _ => "[object Set]"
termination_by v => sizeOf v

def jsDisplayList : List JsVal → String
  | [] => ""
  | [x] => jsDisplay x
  | x :: y :: xs => jsDisplay x ++ "," ++ jsDisplayList (y :: xs)
termination_by xs => sizeOf xs

end

/-- Model of assertHasKey in Mapper.of: the source constructs the Error for a
missing discriminant key but never throws it, so the check always passes. -/
def assertHasKey (_key : String) (_value : JsVal) : JsResult Unit := .ok ()

/-- Model of assertIsType in Mapper.of. -/
def assertIsType (t : String) (v : JsVal) : JsResult Unit :=
  if typeOf v == t then .ok () else .error ("expected type " ++ t ++ ", but got: " ++ typeOf v)

/-- A located validation diagnostic.  The source wraps the message and the
interpolated path into one Error string; the model keeps the path component
separate so that path properties can be stated. -/
structure VError where
  msg : String
  path : String
deriving Repr, DecidableEq

/-- The apostrophe character used by the validator path syntax. -/
def pathQuote : String := String.singleton (Char.ofNat 39)

/-- Path extension for a struct field or map key. -/
def pathField (path n : String) : String :=
  path ++ "[" ++ pathQuote ++ n ++ pathQuote ++ "]"

/-- Path extension for a collection index. -/
def pathIndex (path : String) (i : Nat) : String :=
  path ++ "[" ++ natToString i ++ "]"

mutual

/-- Model of the compiled validator, Validator.of.  The shapes of the model
carry no metadata, so the decorated validator list is empty and the visitor
validators alone apply; the path argument starts at the dollar root. -/
def validatorOf (s : Shape) (v : JsVal) (path : String) : JsResult (List VError) :=
  match s with
  | .enumShape vs =>
    if typeOf v != "string" then
      .ok [⟨"expected string value for enum, got " ++ jsDisplay v, path⟩]
    else if vs.contains (match v with | .vstr str => str | _ => "") then .ok []
    else .ok [⟨"expected one of (" ++ String.intercalate "," vs ++ "), got " ++ jsDisplay v, path⟩]
  | .unionShape items => validatorUnion items v path
  | .literalShape t lv => do
    let b ← isInstance t v
    if b then .ok []
    else .ok [⟨"expected literal value: " ++ jsDisplay lv ++ ", got " ++ jsDisplay v, path⟩]
  | .neverShape => .ok []
  | .functionShape => .ok []
  | .nothingShape => .ok []
  | .anyShape => .ok []
  | .binaryShape => .ok []
  | .boolShape => .ok []
  | .numberShape => .ok []
  | .stringShape => .ok []
  | .timestampShape => .ok []
  | .integerShape =>
    match v with
    | .vint _ => .ok []
    | _ => .ok [⟨"integers must be whole numbers, but got: " ++ jsDisplay v, ""⟩]
  | .arrayShape item =>
    match v with
    | .varr xs => validatorItems item xs path 0
    | _ => .error "TypeError: arr.map is not a function"
  | .structShape fields => validatorFields fields v path
  | .mapShape item => do
    let es ← jsEntries v
    validatorMapValues item es path
  | .setShape item =>
    match v with
    | .vset xs => validatorSetItems item xs path
    | _ => .error "TypeError: set is not iterable"
termination_by (sizeOf s, 0, 0)

/-- Union validator walk: validates against the first variant whose instance
check accepts the value, and yields no diagnostics when none does. -/
def validatorUnion (items : List Shape) (v : JsVal) (path : String) : JsResult (List VError) :=
  match items with
  | [] => .ok []
  | s :: rest => do
    let b ← isInstance s v
    if b then validatorOf s v path else validatorUnion rest v path
termination_by (sizeOf items, 1, 0)

/-- Array validator walk: element diagnostics accumulate in index order with
indexed paths and no short-circuit. -/
def validatorItems (s : Shape) (xs : List JsVal) (path : String) (i : Nat) : JsResult (List VError) :=
  match xs with
  | [] => .ok []
  | x :: rest => do
    let es ← validatorOf s x (pathIndex path i)
    let more ← validatorItems s rest path (i + 1)
    .ok (es ++ more)
termination_by (sizeOf s, 1, sizeOf xs)

/-- Struct validator walk: field diagnostics accumulate in field-declaration
order with field paths and no short-circuit. -/
def validatorFields (fields : List (String × Shape)) (v : JsVal) (path : String) : JsResult (List VError) :=
  match fields with
  | [] => .ok []
  | (n, s) :: rest => do
    let x ← jsGet v n
    let es ← validatorOf s x (pathField path n)
    let more ← validatorFields rest v path
    .ok (es ++ more)
termination_by (sizeOf fields, 1, 0)

/-- Map validator walk over Object.values: the source interpolates the value
itself into the extended path (the key variable is bound to the value). -/
def validatorMapValues (s : Shape) (es : List (String × JsVal)) (path : String) : JsResult (List VError) :=
  match es with
  | [] => .ok []
  | (_, x) :: rest => do
    let errs ← validatorOf s x (pathField path (jsDisplay x))
    let more ← validatorMapValues s rest path
    .ok (errs ++ more)
termination_by (sizeOf s, 1, sizeOf es)

/-- Set validator walk: the source interpolates the path itself where the
index belongs, so every element path is the doubled path. -/
def validatorSetItems (s : Shape) (xs : List JsVal) (path : String) : JsResult (List VError) :=
  match xs with
  | [] => .ok []
  | x :: rest => do
    let errs ← validatorOf s x (pathField path path)
    let more ← validatorSetItems s rest path
    .ok (errs ++ more)
termination_by (sizeOf s, 1, sizeOf xs)

end

def isNullish : JsVal → Bool
  | .vundef => true
  | .vnull => true
  | _ => false

/-- Modelled from the spec: the ShapeGuards used by the set branch of
Mapper.of are not under src/; the spec restricts set elements to string or
enum (string set), numeric (number set) and binary (binary set) kinds, with
integer as a numeric kind. -/
def setKeyOf : Shape → Option String
  | .stringShape => some "SS"
  | .enumShape _ => some "SS"
  | .binaryShape => some "BS"
  | .numberShape => some "NS"
  | .integerShape => some "NS"
  | _ => none

/-- Model of Date.parse on the rendered timestamp strings of the model, which
denote the instant by its decimal millisecond value; an unparsable string
yields NaN, modelled as none. -/
def jsDateParse (s : String) : Option Int := jsParseIntOpt s

/-- Model of parseFloat applied to a wire element, with the string-coercion
of non-string arguments approximated through jsDisplay. -/
def jsParseFloatVal (x : JsVal) : JsVal :=
  match jsParseFloatOpt (jsDisplay x) with
  | some n => .vint n
  | none => .vnan

/-- Elementwise write used by number sets: the toString method of the
element, modelled by jsDisplay. -/
def jsNumToStr (x : JsVal) : String := jsDisplay x

/-- Join of Object.keys used by the union error messages of Mapper.of. -/
def keysJoined (v : JsVal) : JsResult String :=
  (jsKeys v).map (String.intercalate "")

mutual

/-- Model of the read direction of Mapper.of from mapper.ts, the attribute
(DynamoDB) codec, with options.validate false: the ValidatingMapper wrapper
is not under src/ and is omitted; on every value the claims exercise its
validators yield no diagnostics, making the wrapper the identity.  The
resolve step first applies the optional bypass: an optional shape passes
undefined and null through unchanged. -/
def mapperRead (s : Shape) (v : JsVal) : JsResult JsVal :=
  if isOptional s && isNullish v then .ok v
  else
    match s with
    | .structShape fields => do
      let _ ← assertHasKey "M" v
      let m ← jsGet v "M"
      let es ← mapperReadFields fields m
      -- the struct class constructor (struct.ts, not under src/) is
      -- modelled from the spec as copying the declared-field record
      .ok (.vobj es)
    | .arrayShape item => do
      let _ ← assertHasKey "L" v
      let l ← jsGet v "L"
      match l with
      | .varr xs => do
        let ys ← mapperReadItems item xs
        .ok (.varr ys)
      | _ => .error "TypeError: value.L.map is not a function"
    | .setShape item =>
      match setKeyOf item with
      | none => .error ("invalid DynamoDB set type: " ++ kindOf item)
      | some key => do
        let _ ← assertHasKey key v
        let l ← jsGet v key
        match l with
        | .varr xs =>
          if key == "NS" then .ok (.vset (jsNewSet (xs.map jsParseFloatVal)))
          else .ok (.vset (jsNewSet xs))
        | _ => .error "TypeError: value of the set key is not iterable"
    | .mapShape item => do
      let _ ← assertHasKey "M" v
      let m ← jsGet v "M"
      let es ← jsEntries m
      let res ← mapperReadMapValues item es
      .ok (.vobj res)
    | .stringShape => do
      let _ ← assertHasKey "S" v
      let sv ← jsGet v "S"
      let _ ← assertIsType "string" sv
      .ok sv
    | .enumShape _ => do
      let _ ← assertHasKey "S" v
      let sv ← jsGet v "S"
      let _ ← assertIsType "string" sv
      .ok sv
    | .integerShape => do
      let _ ← assertHasKey "N" v
      let nv ← jsGet v "N"
      let _ ← assertIsType "string" nv
      match nv with
      | .vstr str =>
        .ok (match jsParseIntOpt str with | some n => .vint n | none => .vnan)
      | _ => .error "unreachable after the type assertion"
    | .numberShape => do
      let _ ← assertHasKey "N" v
      let nv ← jsGet v "N"
      let _ ← assertIsType "string" nv
      match nv with
      | .vstr str =>
        .ok (match jsParseFloatOpt str with | some n => .vint n | none => .vnan)
      | _ => .error "unreachable after the type assertion"
    | .timestampShape => do
      let _ ← assertHasKey "S" v
      let sv ← jsGet v "S"
      let _ ← assertIsType "string" sv
      match sv with
      | .vstr str => .ok (.vdate (jsDateParse str))
      | _ => .error "unreachable after the type assertion"
    | .anyShape =>
      -- the Any codec delegates to the external AWS converter, out of scope
      -- for every claim; modelled as the identity
      .ok v
    | .binaryShape => do
      let _ ← assertHasKey "B" v
      let bv ← jsGet v "B"
      match bv with
      | .vbuf _ => .ok bv
      | _ => .error ("expected B of type Buffer, but got B of type " ++ typeOf bv)
    | .boolShape => do
      let _ ← assertHasKey "BOOL" v
      let bv ← jsGet v "BOOL"
      .ok bv
    | .unionShape items => mapperReadUnion items v
    | .literalShape t _ => mapperRead t v
    | .nothingShape => .ok .vundef
    | .neverShape => .error ("Shape " ++ kindOf s ++ " is not supported by DynamoDB")
    | .functionShape => .error ("Shape " ++ kindOf s ++ " is not supported by DynamoDB")
termination_by (sizeOf s, 2, 0)

/-- Struct field walk of the attribute reader: a field whose wire entry is
absent (undefined) stays undefined, every other field reads through the
field mapper; the record keeps the declared fields in declaration order. -/
def mapperReadFields (fields : List (String × Shape)) (m : JsVal) : JsResult (List (String × JsVal)) :=
  match fields with
  | [] => .ok []
  | (n, s) :: rest => do
    let x ← jsGet m n
    let y ← if isUndef x then .ok JsVal.vundef else mapperRead s x
    let ys ← mapperReadFields rest m
    .ok ((n, y) :: ys)
termination_by (sizeOf fields, 3, 0)

def mapperReadItems (s : Shape) (xs : List JsVal) : JsResult (List JsVal) :=
  match xs with
  | [] => .ok []
  | x :: rest => do
    let y ← mapperRead s x
    let ys ← mapperReadItems s rest
    .ok (y :: ys)
termination_by (sizeOf s, 3, sizeOf xs)

def mapperReadMapValues (s : Shape) (es : List (String × JsVal)) : JsResult (List (String × JsVal)) :=
  match es with
  | [] => .ok []
  | (n, x) :: rest => do
    let y ← mapperRead s x
    let ys ← mapperReadMapValues s rest
    .ok ((n, y) :: ys)
termination_by (sizeOf s, 3, sizeOf es)

/-- Union walk of the attribute reader: each variant reader is tried in
declaration order inside a try-catch, the first one that does not throw
decides, and exhaustion throws the terminal union failure (whose message
interpolation itself reads Object.keys of the wire value). -/
def mapperReadUnion (items : List Shape) (v : JsVal) : JsResult JsVal :=
  match items with
  | [] =>
    match keysJoined v with
    | .ok ks => .error ("failed to read DDB union type, but got " ++ ks)
    | .error e => .error e
  | s :: rest =>
    match mapperRead s v with
    | .ok w => .ok w
    | .error _ => mapperReadUnion rest v
termination_by (sizeOf items, 3, 0)

/-- Model of the write direction of Mapper.of, under the same conventions as
mapperRead. -/
def mapperWrite (s : Shape) (v : JsVal) : JsResult JsVal :=
  if isOptional s && isNullish v then .ok v
  else
    match s with
    | .structShape fields => do
      let es ← mapperWriteFields fields v
      .ok (.vobj [("M", .vobj es)])
    | .arrayShape item =>
      match v with
      | .varr xs => do
        let ys ← mapperWriteItems item xs
        .ok (.vobj [("L", .varr ys)])
      | _ => .error "TypeError: value.map is not a function"
    | .setShape item =>
      match setKeyOf item with
      | none => .error ("invalid DynamoDB set type: " ++ kindOf item)
      | some key =>
        match v with
        | .vset xs =>
          if key == "NS" then .ok (.vobj [(key, .varr (xs.map fun x => .vstr (jsNumToStr x)))])
          else .ok (.vobj [(key, .varr xs)])
        | _ => .error "TypeError: value is not iterable"
    | .mapShape item => do
      let es ← jsEntries v
      let res ← mapperWriteMapValues item es
      .ok (.vobj [("M", .vobj res)])
    | .stringShape => do
      let _ ← assertIsType "string" v
      .ok (.vobj [("S", v)])
    | .enumShape _ => do
      let _ ← assertIsType "string" v
      .ok (.vobj [("S", v)])
    | .integerShape => do
      let _ ← assertIsType "number" v
      .ok (.vobj [("N", .vstr (jsNumToStr v))])
    | .numberShape => do
      let _ ← assertIsType "number" v
      .ok (.vobj [("N", .vstr (jsNumToStr v))])
    | .timestampShape =>
      match v with
      | .vdate (some ms) => .ok (.vobj [("S", .vstr (intToString ms))])
      | .vdate none => .error "RangeError: invalid time value"
      | _ => .error "TypeError: value.toISOString is not a function"
    | .anyShape => .ok v
    | .binaryShape => .ok (.vobj [("B", v)])
    | .boolShape => .ok (.vobj [("BOOL", v)])
    | .unionShape items => mapperWriteUnion items v
    | .literalShape t _ => mapperWrite t v
    | .nothingShape => .ok (.vobj [("NULL", .vbool true)])
    | .neverShape => .error ("Shape " ++ kindOf s ++ " is not supported by DynamoDB")
    | .functionShape => .error ("Shape " ++ kindOf s ++ " is not supported by DynamoDB")
termination_by (sizeOf s, 2, 0)

/-- Struct field walk of the attribute writer: an undefined field value stays
an explicitly undefined map entry, every other field writes through the
field mapper, in declaration order. -/
def mapperWriteFields (fields : List (String × Shape)) (v : JsVal) : JsResult (List (String × JsVal)) :=
  match fields with
  | [] => .ok []
  | (n, s) :: rest => do
    let x ← jsGet v n
    let y ← if isUndef x then .ok JsVal.vundef else mapperWrite s x
    let ys ← mapperWriteFields rest v
    .ok ((n, y) :: ys)
termination_by (sizeOf fields, 3, 0)

def mapperWriteItems (s : Shape) (xs : List JsVal) : JsResult (List JsVal) :=
  match xs with
  | [] => .ok []
  | x :: rest => do
    let y ← mapperWrite s x
    let ys ← mapperWriteItems s rest
    .ok (y :: ys)
termination_by (sizeOf s, 3, sizeOf xs)

def mapperWriteMapValues (s : Shape) (es : List (String × JsVal)) : JsResult (List (String × JsVal)) :=
  match es with
  | [] => .ok []
  | (n, x) :: rest => do
    let y ← mapperWrite s x
    let ys ← mapperWriteMapValues s rest
    .ok ((n, y) :: ys)
termination_by (sizeOf s, 3, sizeOf es)

/-- Union walk of the attribute writer: the first variant whose deep instance
check accepts the value writes it; exhaustion throws the terminal union
failure. -/
def mapperWriteUnion (items : List Shape) (v : JsVal) : JsResult JsVal :=
  match items with
  | [] =>
    match keysJoined v with
    | .ok ks => .error ("failed to write DDB union type, but got " ++ ks)
    | .error e => .error e
  | s :: rest => do
    let b ← isInstance s v
    if b then mapperWrite s v else mapperWriteUnion rest v
termination_by (sizeOf items, 3, 0)

end

/-- Models the platform base64 codec pair used by the JSON binary mapper by
an injective decimal rendering; the actual alphabet is immaterial to every
claim. -/
def b64Encode (bs : List Nat) : String :=
  String.intercalate "." (bs.map natToString)

def b64Decode (s : String) : List Nat :=
  (s.splitOn ".").filterMap fun part => (jsParseIntOpt part).map Int.toNat

mutual

/-- Model of the read direction of Json.mapper (MapperVisitor), the JSON
codec, with the default options: no validation wrapper.  The optional bypass
of Json.mapper passes undefined and null through unchanged. -/
def jsonRead (s : Shape) (v : JsVal) : JsResult JsVal :=
  if isOptional s && isNullish v then .ok v
  else
    match s with
    | .enumShape vs =>
      match v with
      | .vstr str =>
        if vs.contains str then .ok v
        else .error ("expected a value of the enum, " ++ String.intercalate "," vs)
      | _ => .error ("expected a value of the enum, " ++ String.intercalate "," vs)
    | .literalShape t lv => do
      let _ ← jsonRead t v
      let e ← equalsOf t v lv
      if e then .ok lv
      else .error ("expected literal value: " ++ jsDisplay lv)
    | .unionShape items => jsonReadUnion items v
    | .neverShape => .error "NeverShape is not supported by JSON"
    | .functionShape => .error "FunctionShape is not supported by JSON"
    | .nothingShape =>
      if isNullish v then .ok .vnull
      else .error ("expected null or undefined, got " ++ typeOf v ++ ", " ++ jsDisplay v)
    | .anyShape => .ok v
    | .binaryShape =>
      match v with
      | .vstr str => .ok (.vbuf (b64Decode str))
      | _ => .error "expected base64 encoded string for Binary Payload"
    | .arrayShape item =>
      match v with
      | .varr xs => do
        let ys ← jsonReadItems item xs
        .ok (.varr ys)
      | _ => .error "TypeError: arr.map is not a function"
    | .boolShape =>
      if typeOf v == "boolean" then .ok v
      else .error ("expected boolean but got " ++ typeOf v)
    | .structShape fields =>
      if typeOf v == "object" then do
        let es ← jsonReadFields fields v
        -- the struct class constructor (struct.ts, not under src/) is
        -- modelled from the spec as copying the declared-field record
        .ok (.vobj es)
      else .error ("expected object but got " ++ typeOf v)
    | .mapShape item => do
      -- the source tests typeof valueMapper, a compiled mapper object, so
      -- that guard can never fail and is omitted
      let es ← jsEntries v
      let res ← jsonReadMapValues item es
      .ok (.vobj res)
    | .numberShape =>
      if typeOf v == "number" then .ok v
      else .error ("expected number but got " ++ typeOf v)
    | .integerShape =>
      if typeOf v != "number" then .error ("expected number but got " ++ typeOf v)
      else
        match v with
        | .vint n => .ok (.vint n)
        | _ => .error ("expected integer, got: " ++ jsDisplay v)
    | .setShape item =>
      match v with
      | .varr xs => do
        let ys ← jsonReadItems item xs
        .ok (.vset (jsNewSet ys))
      | _ => .error "TypeError: arr.forEach is not a function"
    | .stringShape =>
      if typeOf v == "string" then .ok v
      else .error ("expected string but got " ++ typeOf v)
    | .timestampShape =>
      match v with
      | .vstr str => .ok (.vdate (jsDateParse str))
      | _ => .error ("expected string for timestamp, but got " ++ typeOf v)
termination_by (sizeOf s, 2, 0)

def jsonReadFields (fields : List (String × Shape)) (v : JsVal) : JsResult (List (String × JsVal)) :=
  match fields with
  | [] => .ok []
  | (n, s) :: rest => do
    let x ← jsGet v n
    let y ← jsonRead s x
    let ys ← jsonReadFields rest v
    .ok ((n, y) :: ys)
termination_by (sizeOf fields, 3, 0)

def jsonReadItems (s : Shape) (xs : List JsVal) : JsResult (List JsVal) :=
  match xs with
  | [] => .ok []
  | x :: rest => do
    let y ← jsonRead s x
    let ys ← jsonReadItems s rest
    .ok (y :: ys)
termination_by (sizeOf s, 3, sizeOf xs)

def jsonReadMapValues (s : Shape) (es : List (String × JsVal)) : JsResult (List (String × JsVal)) :=
  match es with
  | [] => .ok []
  | (n, x) :: rest => do
    let y ← jsonRead s x
    let ys ← jsonReadMapValues s rest
    .ok ((n, y) :: ys)
termination_by (sizeOf s, 3, sizeOf es)

/-- Union walk of the JSON reader: try each variant reader in declaration
order, first success decides, exhaustion throws. -/
def jsonReadUnion (items : List Shape) (v : JsVal) : JsResult JsVal :=
  match items with
  | [] => .error ("expected a value of the union, but got: " ++ jsDisplay v)
  | s :: rest =>
    match jsonRead s v with
    | .ok w => .ok w
    | .error _ => jsonReadUnion rest v
termination_by (sizeOf items, 3, 0)

/-- Model of the write direction of Json.mapper, under the same conventions
as jsonRead. -/
def jsonWrite (s : Shape) (v : JsVal) : JsResult JsVal :=
  if isOptional s && isNullish v then .ok v
  else
    match s with
    | .enumShape _ => .ok v
    | .literalShape t lv => jsonWrite t lv
    | .unionShape items => jsonWriteUnion items v
    | .neverShape => .error "NeverShape is not supported by JSON"
    | .functionShape => .error "FunctionShape is not supported by JSON"
    | .nothingShape => .ok .vnull
    | .anyShape => .ok v
    | .binaryShape =>
      match v with
      | .vbuf bs => .ok (.vstr (b64Encode bs))
      | .vstr str =>
        -- the toString method of a string ignores the base64 argument and
        -- returns the string itself
        .ok (.vstr str)
      | _ => .error "TypeError: b.toString is not a function"
    | .arrayShape item =>
      match v with
      | .varr xs => do
        let ys ← jsonWriteItems item xs
        .ok (.varr ys)
      | _ => .error "TypeError: arr.map is not a function"
    | .boolShape => .ok v
    | .structShape fields => do
      let es ← jsonWriteFields fields v
      .ok (.vobj es)
    | .mapShape item => do
      let es ← jsEntries v
      let res ← jsonWriteMapValues item es
      .ok (.vobj res)
    | .numberShape => .ok v
    | .integerShape => .ok v
    | .setShape item =>
      match v with
      | .vset xs => do
        let ys ← jsonWriteItems item xs
        .ok (.varr ys)
      | _ => .error "TypeError: value is not iterable"
    | .stringShape => .ok v
    | .timestampShape =>
      match v with
      | .vdate (some ms) => .ok (.vstr (intToString ms))
      | .vdate none => .error "RangeError: invalid time value"
      | _ => .error "TypeError: d.toISOString is not a function"
termination_by (sizeOf s, 2, 0)

def jsonWriteFields (fields : List (String × Shape)) (v : JsVal) : JsResult (List (String × JsVal)) :=
  match fields with
  | [] => .ok []
  | (n, s) :: rest => do
    let x ← jsGet v n
    let y ← jsonWrite s x
    let ys ← jsonWriteFields rest v
    .ok ((n, y) :: ys)
termination_by (sizeOf fields, 3, 0)

def jsonWriteItems (s : Shape) (xs : List JsVal) : JsResult (List JsVal) :=
  match xs with
  | [] => .ok []
  | x :: rest => do
    let y ← jsonWrite s x
    let ys ← jsonWriteItems s rest
    .ok (y :: ys)
termination_by (sizeOf s, 3, sizeOf xs)

def jsonWriteMapValues (s : Shape) (es : List (String × JsVal)) : JsResult (List (String × JsVal)) :=
  match es with
  | [] => .ok []
  | (n, x) :: rest => do
    let y ← jsonWrite s x
    let ys ← jsonWriteMapValues s rest
    .ok ((n, y) :: ys)
termination_by (sizeOf s, 3, sizeOf es)

/-- Union walk of the JSON writer: the first variant whose deep instance
check accepts the value writes it; exhaustion throws. -/
def jsonWriteUnion (items : List Shape) (v : JsVal) : JsResult JsVal :=
  match items with
  | [] => .error ("expected one of union type, but got: " ++ jsDisplay v)
  | s :: rest => do
    let b ← isInstance s v
    if b then jsonWrite s v else jsonWriteUnion rest v
termination_by (sizeOf items, 3, 0)

end

/-- Model of JavaScript object property assignment on an insertion-ordered
association list: an existing key keeps its position and takes the new value,
a new key is appended. -/
def jsSet {α : Type} : List (String × α) → String → α → List (String × α)
  | [], k, v => [(k, v)]
  | (k', v') :: rest, k, v =>
    if k' == k then (k, v) :: rest else (k', v') :: jsSet rest k v

/-- Model of Writer.Namespace from writer.ts: the alias-allocation state of
one update-expression compilation.  The lazily initialised alias and value
stores are modelled as empty lists from the start. -/
structure Namespace where
  aliases : List (String × String)
  aliasReverseLookup : List (String × String)
  values : List (String × JsVal)
  namesCounter : Nat
  valuesCounter : Nat
deriving Repr

def Namespace.empty : Namespace := ⟨[], [], [], 0, 0⟩

/-- Model of Namespace.addValue: always allocates a fresh token from the
value counter and stores the wire value under it, with no deduplication. -/
def Namespace.addValue (ns : Namespace) (value : JsVal) : String × Namespace :=
  let id := ":" ++ natToString (ns.valuesCounter + 1)
  (id, { ns with
    valuesCounter := ns.valuesCounter + 1,
    values := jsSet ns.values id value })

/-- Model of Namespace.addName: an already aliased field path returns its
existing token unchanged, a new field path allocates the next token from the
name counter and records both directions of the aliasing. -/
def Namespace.addName (ns : Namespace) (name : String) : String × Namespace :=
  match ns.aliasReverseLookup.lookup name with
  | some tok => (tok, ns)
  | none =>
    let tok := "#" ++ natToString (ns.namesCounter + 1)
    (tok, { ns with
      namesCounter := ns.namesCounter + 1,
      aliases := jsSet ns.aliases tok name,
      aliasReverseLookup := jsSet ns.aliasReverseLookup name tok })

/-- Sequential name-alias requests of one compilation batch against a shared
namespace, yielding the token of each request in order. -/
def runAddNames : List String → Namespace → List String × Namespace
  | [], ns => ([], ns)
  | n :: rest, ns =>
    let (tok, ns') := ns.addName n
    let (toks, ns'') := runAddNames rest ns'
    (tok :: toks, ns'')

/-- Sequential value-alias requests of one compilation batch against a shared
namespace. -/
def runAddValues : List JsVal → Namespace → List String × Namespace
  | [], ns => ([], ns)
  | v :: rest, ns =>
    let (tok, ns') := ns.addValue v
    let (toks, ns'') := runAddValues rest ns'
    (tok :: toks, ns'')

/-- Metadata values of the constraint-annotation store: scalars, arrays and
nested annotation objects. -/
inductive MetaVal where
  | mstr (s : String)
  | mnum (n : Int)
  | mbool (b : Bool)
  | marr (items : List MetaVal)
  | mobj (fields : List (String × MetaVal))
deriving Repr

/-- Spread merge modelling the object literal with base spread first and
update spread second: every update key overwrites in place or appends. -/
def jsSpread : List (String × MetaVal) → List (String × MetaVal) → List (String × MetaVal)
  | base, [] => base
  | base, (k, v) :: rest => jsSpread (jsSet base k v) rest

mutual

/-- Model of Meta.mergeMetadataValue from metadata.ts: two arrays concatenate
with the new entries first, two objects merge recursively key by key (an
update key already present merges into the copy of the old object, a new key
is inserted, and the final spread keeps the update keys first), and any other
pair is overwritten by the new value.  A mixed array and object pair takes
the object branch in the source through index-keyed entries; the model
overwrites instead, a coarsening no claim exercises. -/
def mergeMetadataValue (a b : MetaVal) : MetaVal :=
  match a, b with
  | .marr as, .marr bs => .marr (bs ++ as)
  | .mobj aFs, .mobj bFs => .mobj (jsSpread bFs (mergeEntries aFs bFs))
  | _, _ => b
termination_by (sizeOf b, 0)

/-- The entry loop of the object branch: fold the update entries into the
copied base entries, merging on collisions. -/
def mergeEntries (aEs : List (String × MetaVal)) (bEs : List (String × MetaVal)) :
    List (String × MetaVal) :=
  match bEs with
  | [] => aEs
  | (k, v) :: rest =>
    match aEs.lookup k with
    | some old => mergeEntries (jsSet aEs k (mergeMetadataValue old v)) rest
    | none => mergeEntries (jsSet aEs k v) rest
termination_by (sizeOf bEs, 1)

end

/-- Model of Meta.apply: the incoming trait metadata merges onto the existing
metadata store of the Shape (an absent store merges as the empty object). -/
def metaApply (existing : Option MetaVal) (incoming : MetaVal) : MetaVal :=
  mergeMetadataValue (existing.getD (.mobj [])) incoming

def namesDistinct : List String → Bool
  | [] => true
  | n :: rest => !(rest.any fun m => m == n) && namesDistinct rest

/-- Uniqueness of the keys of an association list, mirroring the unique field
name invariant of Struct shapes. -/
def distinctKeys {α : Type} (l : List (String × α)) : Bool :=
  namesDistinct (l.map Prod.fst)

mutual

/-- The restricted Shape family of the amended round-trip claim: String,
Enum, Bool, Number, Struct (with distinct field names), List and Map over
supported shapes.  Excluded kinds each break the unrestricted claim: Set
instance checks never accept, Binary instance checks accept strings the
attribute reader rejects, Integer has no equality handler, Nothing reads
back as null under JSON, Timestamp can hold invalid dates, Union decoding is
ambiguous (spec design note), and Any, Never, Function, Literal carry their
own codec restrictions. -/
def supportedShape : Shape → Bool
  | .stringShape => true
  | .boolShape => true
  | .numberShape => true
  | .enumShape _ => true
  | .structShape fields => distinctKeys fields && supportedFields fields
  | .arrayShape s => supportedShape s
  | .mapShape s => supportedShape s
  | _ => false
termination_by s => (sizeOf s, 0)

def supportedFields : List (String × Shape) → Bool
  | [] => true
  | (_, s) :: rest => supportedShape s && supportedFields rest
termination_by fs => (sizeOf fs, 1)

end

mutual

/-- Canonical instances of the amended round-trip claim: the exact values the
codecs reproduce bit for bit.  A struct value carries exactly the declared
fields in declaration order, a map value is a plain object of canonical
entries, and scalars are the plain carrier values (never undefined, NaN or a
coercible look-alike). -/
def canonicalValue : Shape → JsVal → Bool
  | .stringShape, v => match v with | .vstr _ => true | _ => false
  | .boolShape, v => match v with | .vbool _ => true | _ => false
  | .numberShape, v => match v with | .vint _ => true | _ => false
  | .enumShape vs, v => match v with | .vstr str => vs.contains str | _ => false
  | .structShape fields, v => match v with | .vobj es => canonicalFields fields es | _ => false
  | .arrayShape s, v => match v with | .varr xs => canonicalItems s xs | _ => false
  | .mapShape s, v => match v with | .vobj es => canonicalMapEntries s es | _ => false
  | .integerShape, _ => false
  | .binaryShape, _ => false
  | .timestampShape, _ => false
  | .anyShape, _ => false
  | .nothingShape, _ => false
  | .neverShape, _ => false
  | .literalShape _ _, _ => false
  | .setShape _, _ => false
  | .unionShape _, _ => false
  | .functionShape, _ => false
termination_by s _ => (sizeOf s, 0, 0)

def canonicalFields : List (String × Shape) → List (String × JsVal) → Bool
  | [], [] => true
  | (n, s) :: fs, (m, v) :: es => n == m && canonicalValue s v && canonicalFields fs es
  | _, _ => false
termination_by fs _ => (sizeOf fs, 1, 0)

def canonicalItems : Shape → List JsVal → Bool
  | _, [] => true
  | s, x :: xs => canonicalValue s x && canonicalItems s xs
termination_by s xs => (sizeOf s, 1, sizeOf xs)

def canonicalMapEntries : Shape → List (String × JsVal) → Bool
  | _, [] => true
  | s, (_, v) :: es => canonicalValue s v && canonicalMapEntries s es
termination_by s es => (sizeOf s, 1, sizeOf es)

end

mutual

/-- The attribute wire value of a canonical instance, used to state the
round-trip equalities of the amended claim. -/
def attrWireOf : Shape → JsVal → JsVal
  | .stringShape, v => .vobj [("S", v)]
  | .enumShape _, v => .vobj [("S", v)]
  | .boolShape, v => .vobj [("BOOL", v)]
  | .numberShape, v => .vobj [("N", .vstr (jsNumToStr v))]
  | .structShape fields, v =>
    (match v with
      | .vobj es => .vobj [("M", .vobj (attrWireFields fields es))]
      | _ => .vundef)
  | .arrayShape s, v =>
    (match v with
      | .varr xs => .vobj [("L", .varr (xs.map fun x => attrWireOf s x))]
      | _ => .vundef)
  | .mapShape s, v =>
    (match v with
      | .vobj es => .vobj [("M", .vobj (es.map fun p => (p.1, attrWireOf s p.2)))]
      | _ => .vundef)
  | _, _ => .vundef
termination_by s _ => (sizeOf s, 0)

def attrWireFields : List (String × Shape) → List (String × JsVal) → List (String × JsVal)
  | (n, s) :: fs, (_, v) :: es => (n, attrWireOf s v) :: attrWireFields fs es
  | _, _ => []
termination_by fs _ => (sizeOf fs, 1)

end

mutual

/-- The JSON wire value of a canonical instance. -/
def jsonWireOf : Shape → JsVal → JsVal
  | .stringShape, v => v
  | .enumShape _, v => v
  | .boolShape, v => v
  | .numberShape, v => v
  | .structShape fields, v =>
    (match v with
      | .vobj es => .vobj (jsonWireFields fields es)
      | _ => .vundef)
  | .arrayShape s, v =>
    (match v with
      | .varr xs => .varr (xs.map fun x => jsonWireOf s x)
      | _ => .vundef)
  | .mapShape s, v =>
    (match v with
      | .vobj es => .vobj (es.map fun p => (p.1, jsonWireOf s p.2))
      | _ => .vundef)
  | _, _ => .vundef
termination_by s _ => (sizeOf s, 0)

def jsonWireFields : List (String × Shape) → List (String × JsVal) → List (String × JsVal)
  | (n, s) :: fs, (_, v) :: es => (n, jsonWireOf s v) :: jsonWireFields fs es
  | _, _ => []
termination_by fs _ => (sizeOf fs, 1)

end

/-- First declared field of a given name. -/
def fieldsFind : List (String × Shape) → String → Option Shape
  | [], _ => none
  | (n, s) :: rest, k => if n == k then some s else fieldsFind rest k


/-- Pointwise agreement of a wire store with the expected attribute wire
values for a lockstep field and value list. -/
def AttrWireAgree (WS : List (String × JsVal)) : List (String × Shape) → List (String × JsVal) → Prop
  | [], [] => True
  | (n, s) :: fs, (_, v) :: es => WS.lookup n = some (attrWireOf s v) ∧ AttrWireAgree WS fs es
  | _, _ => False


/-- Pointwise agreement of a wire store with the expected JSON wire values
for a lockstep field and value list. -/
def JsonWireAgree (WS : List (String × JsVal)) : List (String × Shape) → List (String × JsVal) → Prop
  | [], [] => True
  | (n, s) :: fs, (_, v) :: es => WS.lookup n = some (jsonWireOf s v) ∧ JsonWireAgree WS fs es
  | _, _ => False


/-- The entry list of an object-valued metadata value. -/
def mobjFields : MetaVal → List (String × MetaVal)
  | .mobj fs => fs
  | _ => []


theorem charVal_digitChar {d : Nat} (h : d < 10) : charVal (digitChar d) = d := by
  interval_cases d <;> rfl

theorem isDigit_digitChar {d : Nat} (h : d < 10) : (digitChar d).isDigit = true := by
  interval_cases d <;> rfl

theorem natDigits_lt (n : Nat) : ∀ d ∈ natDigits n, d < 10 := by
  rw [natDigits]
  split
  · simp
  · intro d hd
    rcases List.mem_cons.mp hd with h | h
    · omega
    · exact natDigits_lt (n / 10) d h

theorem digitsVal_foldl (init : Nat) (ds : List Char) :
    ds.foldl (fun a c => 10 * a + charVal c) init = init * 10 ^ ds.length + digitsVal ds := by
  induction ds generalizing init with
  | nil => simp [digitsVal]
  | cons d rest ih =>
    simp only [List.foldl_cons, digitsVal, List.length_cons]
    rw [ih (10 * init + charVal d), ih (10 * 0 + charVal d)]
    ring

theorem digitsVal_natDigits (n : Nat) :
    digitsVal ((natDigits n).reverse.map digitChar) = n := by
  rw [natDigits]
  split
  · simp [digitsVal]
    omega
  · rename_i h
    simp only [List.reverse_cons, List.map_append, List.map_cons, List.map_nil]
    simp only [digitsVal, List.foldl_append, List.foldl_cons, List.foldl_nil]
    rw [digitsVal_foldl]
    have harec := digitsVal_natDigits (n / 10)
    rw [harec]
    have hm : n % 10 < 10 := Nat.mod_lt _ (by omega)
    rw [charVal_digitChar hm]
    simp only [Nat.zero_mul, Nat.zero_add]
    omega

theorem takeWhile_all_eq {p : Char → Bool} (cs : List Char) (h : ∀ c ∈ cs, p c = true) :
    cs.takeWhile p = cs := by
  induction cs with
  | nil => rfl
  | cons c rest ih =>
    simp only [List.takeWhile_cons]
    rw [h c (List.mem_cons_self c rest)]
    simp [ih fun x hx => h x (List.mem_cons_of_mem c hx)]

theorem natToString_data_digits {n : Nat} (h : n ≠ 0) :
    (natToString n).data = (natDigits n).reverse.map digitChar := by
  rw [natToString, if_neg h]

theorem natToString_all_digits (n : Nat) :
    ∀ c ∈ (natToString n).data, c.isDigit = true := by
  intro c hc
  by_cases h : n = 0
  · subst h
    simp only [natToString, if_pos rfl] at hc
    have : c = '0' := by
      rcases hc with _ | _
      · rfl
      · rename_i hmem
        cases hmem
    subst this
    rfl
  · rw [natToString_data_digits h] at hc
    simp only [List.mem_map, List.mem_reverse] at hc
    obtain ⟨d, hd, rfl⟩ := hc
    exact isDigit_digitChar (natDigits_lt n d hd)

theorem natToString_ne_nil (n : Nat) : (natToString n).data ≠ [] := by
  by_cases h : n = 0
  · subst h
    simp [natToString]
  · rw [natToString_data_digits h]
    have : natDigits n ≠ [] := by
      rw [natDigits]
      split <;> simp_all
    simp [this]

theorem natToString_isEmpty_false (n : Nat) : (natToString n).data.isEmpty = false := by
  rcases hd : (natToString n).data with _ | ⟨c, cs⟩
  · exact absurd hd (natToString_ne_nil n)
  · rfl

theorem jsParseIntOpt_natToString (n : Nat) : jsParseIntOpt (natToString n) = some (n : Int) := by
  rw [jsParseIntOpt]
  have hhead : (natToString n).data.head? ≠ some '-' := by
    rcases hd : (natToString n).data with _ | ⟨c, rest⟩
    · simp
    · have hc : c.isDigit = true := natToString_all_digits n c (by rw [hd]; exact List.mem_cons_self _ _)
      simp only [List.head?_cons, ne_eq, Option.some.injEq]
      intro hcon
      subst hcon
      exact absurd hc (by decide)
  rw [if_neg hhead]
  have hld : leadingDigits (natToString n).data = (natToString n).data :=
    takeWhile_all_eq _ (natToString_all_digits n)
  rw [hld]
  rw [if_neg (by simp [natToString_isEmpty_false])]
  by_cases h : n = 0
  · subst h
    simp [natToString, digitsVal, charVal]
  · rw [natToString_data_digits h, digitsVal_natDigits n]

theorem jsParseIntOpt_intToString (n : Int) : jsParseIntOpt (intToString n) = some n := by
  rw [intToString]
  split
  · rename_i hneg
    have hdata : ("-" ++ natToString n.natAbs).data = '-' :: (natToString n.natAbs).data := by
      rw [String.data_append]
      rfl
    rw [jsParseIntOpt, hdata]
    rw [if_pos (by simp)]
    simp only [List.tail_cons]
    have hld : leadingDigits (natToString n.natAbs).data = (natToString n.natAbs).data :=
      takeWhile_all_eq _ (natToString_all_digits n.natAbs)
    rw [hld]
    rw [if_neg (by simp [natToString_isEmpty_false])]
    have hz : n.natAbs ≠ 0 := by omega
    rw [natToString_data_digits hz, digitsVal_natDigits]
    congr 1
    omega
  · rename_i hpos
    rw [jsParseIntOpt_natToString]
    congr 1
    omega

theorem natToString_injective : Function.Injective natToString := by
  intro a b hab
  have ha := jsParseIntOpt_natToString a
  have hb := jsParseIntOpt_natToString b
  rw [hab, hb] at ha
  have hba := Option.some.inj ha
  exact_mod_cast hba.symm


theorem lookup_cons_ne {α : Type} (k : String) (v : α) (rest : List (String × α))
    (x : String) (hne : (x == k) = false) :
    List.lookup x ((k, v) :: rest) = List.lookup x rest := by
  simp [List.lookup, hne]

theorem lookup_self_of_distinct {α : Type} (l : List (String × α))
    (hd : namesDistinct (l.map Prod.fst) = true) :
    ∀ p ∈ l, l.lookup p.1 = some p.2 := by
  induction l with
  | nil => intro p hp; cases hp
  | cons q rest ih =>
    intro p hp
    obtain ⟨k, v⟩ := q
    simp only [List.map_cons, namesDistinct, Bool.and_eq_true, Bool.not_eq_true] at hd
    obtain ⟨hnot, hrest⟩ := hd
    rcases List.mem_cons.mp hp with h | h
    · subst h
      simp [List.lookup]
    · have hmem : p.1 ∈ rest.map Prod.fst := List.mem_map_of_mem Prod.fst h
      have hne : ¬ (p.1 = k) := by
        intro heq
        have hany : ((rest.map Prod.fst).any fun m => m == k) = true :=
          List.any_eq_true.mpr ⟨p.1, hmem, by simp [heq]⟩
        rw [hany] at hnot
        cases hnot
      have hbe : (p.1 == k) = false := by
        simp [hne]
      rw [lookup_cons_ne k v rest p.1 hbe]
      exact ih hrest p h

theorem canonicalFields_names (fields : List (String × Shape)) (es : List (String × JsVal))
    (hc : canonicalFields fields es = true) :
    es.map Prod.fst = fields.map Prod.fst := by
  match fields, es with
  | [], [] => rfl
  | (n, s) :: fs, (m, v) :: es' =>
    simp only [canonicalFields, Bool.and_eq_true, beq_iff_eq] at hc
    obtain ⟨⟨hnm, _⟩, hrest⟩ := hc
    simp only [List.map_cons]
    rw [hnm, canonicalFields_names fs es' hrest]
  | [], (m, v) :: es' => simp [canonicalFields] at hc
  | (n, s) :: fs, [] => simp [canonicalFields] at hc

theorem canonicalValue_vundef (s : Shape) : canonicalValue s .vundef = false := by
  cases s <;> simp [canonicalValue]

theorem canonical_isUndef_false {s : Shape} {v : JsVal} (h : canonicalValue s v = true) :
    isUndef v = false := by
  cases v
  case vundef => rw [canonicalValue_vundef] at h; cases h
  all_goals rfl

@[simp]
theorem exBindOk {α β : Type} (a : α) (f : α → JsResult β) :
    (Except.ok a >>= f : JsResult β) = f a := rfl

@[simp]
theorem exBindErr {α β : Type} (e : String) (f : α → JsResult β) :
    (Except.error e >>= f : JsResult β) = Except.error e := rfl

mutual

theorem canonInst (s : Shape) (v : JsVal)
    (hs : supportedShape s = true) (hc : canonicalValue s v = true) :
    isInstance s v = .ok true := by
  match s, v with
  | .stringShape, .vstr str => simp [isInstance, typeOf]
  | .boolShape, .vbool b => simp [isInstance, typeOf]
  | .numberShape, .vint n => simp [isInstance, typeOf]
  | .enumShape vs, .vstr str =>
    simp only [canonicalValue] at hc
    simp only [isInstance]
    rw [hc]
  | .structShape fields, .vobj es =>
    simp only [supportedShape, Bool.and_eq_true] at hs
    obtain ⟨hdk, hsf⟩ := hs
    simp only [canonicalValue] at hc
    have hnames := canonicalFields_names fields es hc
    have hdes : namesDistinct (es.map Prod.fst) = true := by
      rw [hnames]; exact hdk
    have hag := lookup_self_of_distinct es hdes
    simp only [isInstance, typeOf]
    rw [if_pos (by decide)]
    exact canonInstFields fields es es hsf hc hag
  | .arrayShape item, .varr xs =>
    simp only [supportedShape] at hs
    simp only [canonicalValue] at hc
    simp only [isInstance]
    exact canonInstItems item xs hs hc
  | .mapShape item, .vobj es =>
    simp only [supportedShape] at hs
    simp only [canonicalValue] at hc
    simp only [isInstance, typeOf]
    rw [if_pos (by decide)]
    simp only [jsEntries, exBindOk]
    exact canonInstMapVals item es hs hc
  | .stringShape, .vint _ | .stringShape, .vnan | .stringShape, .vbool _ | .stringShape, .vundef
  | .stringShape, .vnull | .stringShape, .vbuf _ | .stringShape, .vdate _ | .stringShape, .vobj _
  | .stringShape, .varr _ | .stringShape, .vset _ => simp [canonicalValue] at hc
  | .boolShape, .vstr _ | .boolShape, .vint _ | .boolShape, .vnan | .boolShape, .vundef
  | .boolShape, .vnull | .boolShape, .vbuf _ | .boolShape, .vdate _ | .boolShape, .vobj _
  | .boolShape, .varr _ | .boolShape, .vset _ => simp [canonicalValue] at hc
  | .numberShape, .vstr _ | .numberShape, .vnan | .numberShape, .vbool _ | .numberShape, .vundef
  | .numberShape, .vnull | .numberShape, .vbuf _ | .numberShape, .vdate _ | .numberShape, .vobj _
  | .numberShape, .varr _ | .numberShape, .vset _ => simp [canonicalValue] at hc
  | .enumShape _, .vint _ | .enumShape _, .vnan | .enumShape _, .vbool _ | .enumShape _, .vundef
  | .enumShape _, .vnull | .enumShape _, .vbuf _ | .enumShape _, .vdate _ | .enumShape _, .vobj _
  | .enumShape _, .varr _ | .enumShape _, .vset _ => simp [canonicalValue] at hc
  | .structShape _, .vstr _ | .structShape _, .vint _ | .structShape _, .vnan
  | .structShape _, .vbool _ | .structShape _, .vundef | .structShape _, .vnull
  | .structShape _, .vbuf _ | .structShape _, .vdate _ | .structShape _, .varr _
  | .structShape _, .vset _ => simp [canonicalValue] at hc
  | .arrayShape _, .vstr _ | .arrayShape _, .vint _ | .arrayShape _, .vnan
  | .arrayShape _, .vbool _ | .arrayShape _, .vundef | .arrayShape _, .vnull
  | .arrayShape _, .vbuf _ | .arrayShape _, .vdate _ | .arrayShape _, .vobj _
  | .arrayShape _, .vset _ => simp [canonicalValue] at hc
  | .mapShape _, .vstr _ | .mapShape _, .vint _ | .mapShape _, .vnan
  | .mapShape _, .vbool _ | .mapShape _, .vundef | .mapShape _, .vnull
  | .mapShape _, .vbuf _ | .mapShape _, .vdate _ | .mapShape _, .varr _
  | .mapShape _, .vset _ => simp [canonicalValue] at hc
  | .integerShape, _ | .binaryShape, _ | .timestampShape, _ | .anyShape, _
  | .nothingShape, _ | .neverShape, _ | .literalShape _ _, _ | .setShape _, _
  | .unionShape _, _ | .functionShape, _ => simp [supportedShape] at hs
termination_by (sizeOf s, 0, 0)

theorem canonInstFields (fields : List (String × Shape)) (es ES : List (String × JsVal))
    (hsf : supportedFields fields = true) (hc : canonicalFields fields es = true)
    (hag : ∀ p ∈ es, ES.lookup p.1 = some p.2) :
    isInstanceFields fields (.vobj ES) = .ok true := by
  match fields, es with
  | [], _ => simp [isInstanceFields]
  | (n, s) :: fs, [] => simp [canonicalFields] at hc
  | (n, s) :: fs, (m, v) :: es' =>
    simp only [canonicalFields, Bool.and_eq_true, beq_iff_eq] at hc
    obtain ⟨⟨hnm, hcv⟩, hrest⟩ := hc
    simp only [supportedFields, Bool.and_eq_true] at hsf
    obtain ⟨hss, hsf'⟩ := hsf
    have hlook : ES.lookup n = some v := by
      rw [hnm]
      exact hag (m, v) (List.mem_cons_self _ _)
    simp only [isInstanceFields, jsGet, hlook, exBindOk]
    rw [canonInst s v hss hcv]
    simp only [exBindOk, if_pos]
    exact canonInstFields fs es' ES hsf' hrest fun p hp => hag p (List.mem_cons_of_mem _ hp)
termination_by (sizeOf fields, 1, 0)

theorem canonInstItems (s : Shape) (xs : List JsVal)
    (hs : supportedShape s = true) (hc : canonicalItems s xs = true) :
    isInstanceItemsAll s xs = .ok true := by
  match xs with
  | [] => simp [isInstanceItemsAll]
  | x :: rest =>
    simp only [canonicalItems, Bool.and_eq_true] at hc
    obtain ⟨hcx, hcr⟩ := hc
    simp only [isInstanceItemsAll]
    rw [canonInst s x hs hcx]
    simp only [exBindOk]
    rw [canonInstItems s rest hs hcr]
    simp
termination_by (sizeOf s, 1, sizeOf xs)

theorem canonInstMapVals (s : Shape) (es : List (String × JsVal))
    (hs : supportedShape s = true) (hc : canonicalMapEntries s es = true) :
    isInstanceMapValues s es = .ok true := by
  match es with
  | [] => simp [isInstanceMapValues]
  | (n, x) :: rest =>
    simp only [canonicalMapEntries, Bool.and_eq_true] at hc
    obtain ⟨hcx, hcr⟩ := hc
    simp only [isInstanceMapValues]
    rw [canonInst s x hs hcx]
    simp only [exBindOk]
    exact canonInstMapVals s rest hs hcr
termination_by (sizeOf s, 1, sizeOf es)

end

@[simp]
theorem exMapOk {α β : Type} (a : α) (f : α → β) :
    (Except.ok a : JsResult α).map f = Except.ok (f a) := rfl

theorem lookup_mem {α : Type} (l : List (String × α)) (k : String) (v : α)
    (h : l.lookup k = some v) : (k, v) ∈ l := by
  induction l with
  | nil => cases h
  | cons q rest ih =>
    obtain ⟨n, w⟩ := q
    by_cases hk : k = n
    · subst hk
      simp [List.lookup] at h
      subst h
      exact List.mem_cons_self _ _
    · have hbe : (k == n) = false := by simp [hk]
      rw [lookup_cons_ne n w rest k hbe] at h
      exact List.mem_cons_of_mem _ (ih h)

theorem canonicalItems_mem (s : Shape) (xs : List JsVal) (hc : canonicalItems s xs = true) :
    ∀ x ∈ xs, canonicalValue s x = true := by
  induction xs with
  | nil => intro x hx; cases hx
  | cons y rest ih =>
    rw [canonicalItems, Bool.and_eq_true] at hc
    intro x hx
    rcases List.mem_cons.mp hx with h | h
    · subst h; exact hc.1
    · exact ih hc.2 x h

theorem canonicalMapEntries_mem (s : Shape) (es : List (String × JsVal))
    (hc : canonicalMapEntries s es = true) :
    ∀ p ∈ es, canonicalValue s p.2 = true := by
  induction es with
  | nil => intro p hp; cases hp
  | cons q rest ih =>
    obtain ⟨n, v⟩ := q
    rw [canonicalMapEntries, Bool.and_eq_true] at hc
    intro p hp
    rcases List.mem_cons.mp hp with h | h
    · subst h; exact hc.1
    · exact ih hc.2 p h

theorem canonicalFields_find (fields : List (String × Shape)) (es : List (String × JsVal))
    (hc : canonicalFields fields es = true) (k : String) (v : JsVal) (s : Shape)
    (hlv : es.lookup k = some v) (hfs : fieldsFind fields k = some s) :
    canonicalValue s v = true := by
  match fields, es with
  | [], [] => cases hfs
  | [], (m, w) :: es' => simp [canonicalFields] at hc
  | (n, s0) :: fs, [] => simp [canonicalFields] at hc
  | (n, s0) :: fs, (m, w) :: es' =>
    simp only [canonicalFields, Bool.and_eq_true, beq_iff_eq] at hc
    obtain ⟨⟨hnm, hcv⟩, hrest⟩ := hc
    by_cases hk : k = n
    · subst hk
      simp only [fieldsFind, beq_self_eq_true, if_pos] at hfs
      have hbe : (k == m) = true := by simp [hnm]
      simp only [List.lookup, hbe] at hlv
      rw [← Option.some.injEq] at hfs hlv
      simp at hfs hlv
      rw [← hfs, ← hlv]
      exact hcv
    · have hbn : (n == k) = false := by
        simp
        exact fun heq => hk heq.symm
      have hbm : (k == m) = false := by
        simp [← hnm]
        exact hk
      simp only [fieldsFind, hbn, Bool.false_eq_true, if_false] at hfs
      rw [lookup_cons_ne m w es' k hbm] at hlv
      exact canonicalFields_find fs es' hrest k v s hlv hfs

theorem fieldsFind_isSome_of_mem (fields : List (String × Shape)) (k : String)
    (h : k ∈ fields.map Prod.fst) : (fieldsFind fields k).isSome = true := by
  induction fields with
  | nil => cases h
  | cons q rest ih =>
    obtain ⟨n, s⟩ := q
    by_cases hk : n = k
    · subst hk
      simp [fieldsFind]
    · have hbe : (n == k) = false := by simp [hk]
      simp only [fieldsFind, hbe, Bool.false_eq_true, if_false]
      apply ih
      simp only [List.map_cons, List.mem_cons] at h
      rcases h with h | h
      · exact absurd h.symm hk
      · exact h

theorem lookup_isSome_of_mem_keys {α : Type} (l : List (String × α)) (k : String)
    (h : k ∈ l.map Prod.fst) : ∃ v, l.lookup k = some v := by
  induction l with
  | nil => cases h
  | cons q rest ih =>
    obtain ⟨n, w⟩ := q
    by_cases hk : k = n
    · subst hk
      exact ⟨w, by simp [List.lookup]⟩
    · have hbe : (k == n) = false := by simp [hk]
      rw [lookup_cons_ne n w rest k hbe]
      apply ih
      simp only [List.map_cons, List.mem_cons] at h
      rcases h with h | h
      · exact absurd h hk
      · exact h

mutual

theorem canonEq (s : Shape) (v : JsVal)
    (hs : supportedShape s = true) (hc : canonicalValue s v = true) :
    equalsOf s v v = .ok true := by
  match s, v with
  | .stringShape, .vstr str => simp [equalsOf, jsEq]
  | .boolShape, .vbool b => simp [equalsOf, jsEq]
  | .numberShape, .vint n => simp [equalsOf, jsEq]
  | .enumShape vs, .vstr str => simp [equalsOf, jsEq]
  | .structShape fields, .vobj es =>
    simp only [supportedShape, Bool.and_eq_true] at hs
    obtain ⟨hdk, hsf⟩ := hs
    simp only [canonicalValue] at hc
    have hnames := canonicalFields_names fields es hc
    simp only [equalsOf, jsKeys, jsEntries, exMapOk, exBindOk]
    rw [if_neg (by simp)]
    apply canonEqStructKeys fields (es.map Prod.fst) es hsf
    intro k hk
    have hsome := lookup_isSome_of_mem_keys es k hk
    obtain ⟨v, hv⟩ := hsome
    refine ⟨v, hv, ?_, ?_⟩
    · apply fieldsFind_isSome_of_mem
      rw [← hnames]
      exact hk
    · intro s0 hs0
      exact canonicalFields_find fields es hc k v s0 hv hs0
  | .arrayShape item, .varr xs =>
    simp only [supportedShape] at hs
    simp only [canonicalValue] at hc
    simp only [equalsOf, jsLengthOpt]
    rw [if_neg (by simp)]
    apply canonEqArrayLoop item xs (List.range xs.length) hs
    · intro i hi
      exact List.mem_range.mp hi
    · exact canonicalItems_mem item xs hc
  | .mapShape item, .vobj es =>
    simp only [supportedShape] at hs
    simp only [canonicalValue] at hc
    simp only [equalsOf, jsKeys, jsEntries, exMapOk, exBindOk]
    rw [if_neg (by simp)]
    apply canonEqMapKeys item (es.map Prod.fst) es hs
    intro k hk
    obtain ⟨v, hv⟩ := lookup_isSome_of_mem_keys es k hk
    exact ⟨v, hv, canonicalMapEntries_mem item es hc (k, v) (lookup_mem es k v hv)⟩
  | .stringShape, .vint _ | .stringShape, .vnan | .stringShape, .vbool _ | .stringShape, .vundef
  | .stringShape, .vnull | .stringShape, .vbuf _ | .stringShape, .vdate _ | .stringShape, .vobj _
  | .stringShape, .varr _ | .stringShape, .vset _ => simp [canonicalValue] at hc
  | .boolShape, .vstr _ | .boolShape, .vint _ | .boolShape, .vnan | .boolShape, .vundef
  | .boolShape, .vnull | .boolShape, .vbuf _ | .boolShape, .vdate _ | .boolShape, .vobj _
  | .boolShape, .varr _ | .boolShape, .vset _ => simp [canonicalValue] at hc
  | .numberShape, .vstr _ | .numberShape, .vnan | .numberShape, .vbool _ | .numberShape, .vundef
  | .numberShape, .vnull | .numberShape, .vbuf _ | .numberShape, .vdate _ | .numberShape, .vobj _
  | .numberShape, .varr _ | .numberShape, .vset _ => simp [canonicalValue] at hc
  | .enumShape _, .vint _ | .enumShape _, .vnan | .enumShape _, .vbool _ | .enumShape _, .vundef
  | .enumShape _, .vnull | .enumShape _, .vbuf _ | .enumShape _, .vdate _ | .enumShape _, .vobj _
  | .enumShape _, .varr _ | .enumShape _, .vset _ => simp [canonicalValue] at hc
  | .structShape _, .vstr _ | .structShape _, .vint _ | .structShape _, .vnan
  | .structShape _, .vbool _ | .structShape _, .vundef | .structShape _, .vnull
  | .structShape _, .vbuf _ | .structShape _, .vdate _ | .structShape _, .varr _
  | .structShape _, .vset _ => simp [canonicalValue] at hc
  | .arrayShape _, .vstr _ | .arrayShape _, .vint _ | .arrayShape _, .vnan
  | .arrayShape _, .vbool _ | .arrayShape _, .vundef | .arrayShape _, .vnull
  | .arrayShape _, .vbuf _ | .arrayShape _, .vdate _ | .arrayShape _, .vobj _
  | .arrayShape _, .vset _ => simp [canonicalValue] at hc
  | .mapShape _, .vstr _ | .mapShape _, .vint _ | .mapShape _, .vnan
  | .mapShape _, .vbool _ | .mapShape _, .vundef | .mapShape _, .vnull
  | .mapShape _, .vbuf _ | .mapShape _, .vdate _ | .mapShape _, .varr _
  | .mapShape _, .vset _ => simp [canonicalValue] at hc
  | .integerShape, _ | .binaryShape, _ | .timestampShape, _ | .anyShape, _
  | .nothingShape, _ | .neverShape, _ | .literalShape _ _, _ | .setShape _, _
  | .unionShape _, _ | .functionShape, _ => simp [supportedShape] at hs
termination_by (sizeOf s, 0, 0)

theorem canonEqFieldLookup (fields : List (String × Shape)) (k : String) (v : JsVal)
    (hsf : supportedFields fields = true)
    (hsome : (fieldsFind fields k).isSome = true)
    (hv : ∀ s, fieldsFind fields k = some s → canonicalValue s v = true) :
    equalsFieldLookup fields k v v = .ok true := by
  match fields with
  | [] => simp [fieldsFind] at hsome
  | (n, s) :: rest =>
    simp only [supportedFields, Bool.and_eq_true] at hsf
    obtain ⟨hss, hsf'⟩ := hsf
    by_cases hnk : (n == k) = true
    · simp only [equalsFieldLookup, hnk, if_pos]
      apply canonEq s v hss
      apply hv
      simp [fieldsFind, hnk]
    · have hnkf : (n == k) = false := by
        rcases hb : (n == k) with _ | _
        · rfl
        · exact absurd hb hnk
      simp only [equalsFieldLookup, hnkf, Bool.false_eq_true, if_false]
      apply canonEqFieldLookup rest k v hsf'
      · simp only [fieldsFind, hnkf, Bool.false_eq_true, if_false] at hsome
        exact hsome
      · intro s0 hs0
        apply hv
        simp only [fieldsFind, hnkf, Bool.false_eq_true, if_false]
        exact hs0
termination_by (sizeOf fields, 1, 0)

theorem canonEqStructKeys (fields : List (String × Shape)) (ks : List String)
    (ES : List (String × JsVal)) (hsf : supportedFields fields = true)
    (hk : ∀ k ∈ ks, ∃ v, ES.lookup k = some v ∧ (fieldsFind fields k).isSome = true ∧
      ∀ s, fieldsFind fields k = some s → canonicalValue s v = true) :
    equalsStructKeys fields ks (.vobj ES) (.vobj ES) = .ok true := by
  match ks with
  | [] => simp [equalsStructKeys]
  | k :: rest =>
    obtain ⟨v, hv, hsome, hcan⟩ := hk k (List.mem_cons_self _ _)
    have hgl : jsGetLoose (.vobj ES) k = v := by
      simp [jsGetLoose, jsGet, hv]
    have hnotundef : isUndef v = false := by
      obtain ⟨s0, hs0⟩ := Option.isSome_iff_exists.mp hsome
      exact canonical_isUndef_false (hcan s0 hs0)
    simp only [equalsStructKeys, hgl]
    rw [if_neg (by simp [hnotundef])]
    rw [canonEqFieldLookup fields k v hsf hsome hcan]
    simp only [exBindOk, if_pos]
    exact canonEqStructKeys fields rest ES hsf fun k' hk' => hk k' (List.mem_cons_of_mem _ hk')
termination_by (sizeOf fields, 2, sizeOf ks)

theorem canonEqArrayLoop (s : Shape) (xs : List JsVal) (idxs : List Nat)
    (hs : supportedShape s = true)
    (hlt : ∀ i ∈ idxs, i < xs.length)
    (hc : ∀ x ∈ xs, canonicalValue s x = true) :
    equalsArrayLoop s (.varr xs) (.varr xs) idxs = .ok true := by
  match idxs with
  | [] => simp [equalsArrayLoop]
  | i :: rest =>
    have hi := hlt i (List.mem_cons_self _ _)
    have hmem : xs.getD i .vundef ∈ xs := by
      rw [List.getD_eq_getElem xs .vundef hi]
      exact List.getElem_mem hi
    simp only [equalsArrayLoop, jsIndex]
    rw [canonEq s (xs.getD i .vundef) hs (hc _ hmem)]
    simp only [exBindOk, if_pos]
    exact canonEqArrayLoop s xs rest hs (fun j hj => hlt j (List.mem_cons_of_mem _ hj)) hc
termination_by (sizeOf s, 1, sizeOf idxs)

theorem canonEqMapKeys (s : Shape) (ks : List String) (ES : List (String × JsVal))
    (hs : supportedShape s = true)
    (hk : ∀ k ∈ ks, ∃ v, ES.lookup k = some v ∧ canonicalValue s v = true) :
    equalsMapKeys s ks (.vobj ES) (.vobj ES) = .ok true := by
  match ks with
  | [] => simp [equalsMapKeys]
  | k :: rest =>
    obtain ⟨v, hv, hcan⟩ := hk k (List.mem_cons_self _ _)
    have hgl : jsGetLoose (.vobj ES) k = v := by
      simp [jsGetLoose, jsGet, hv]
    simp only [equalsMapKeys, hgl]
    rw [if_neg (by simp [canonical_isUndef_false hcan])]
    rw [canonEq s v hs hcan]
    simp only [exBindOk, if_pos]
    exact canonEqMapKeys s rest ES hs fun k' hk' => hk k' (List.mem_cons_of_mem _ hk')
termination_by (sizeOf s, 1, sizeOf ks)

end

mutual

theorem canonAttrW (s : Shape) (v : JsVal)
    (hs : supportedShape s = true) (hc : canonicalValue s v = true) :
    mapperWrite s v = .ok (attrWireOf s v) := by
  match s, v with
  | .stringShape, .vstr str =>
    simp [mapperWrite, isOptional, assertIsType, typeOf, attrWireOf]
  | .enumShape vs, .vstr str =>
    simp [mapperWrite, isOptional, assertIsType, typeOf, attrWireOf]
  | .boolShape, .vbool b =>
    simp [mapperWrite, isOptional, attrWireOf]
  | .numberShape, .vint n =>
    simp [mapperWrite, isOptional, assertIsType, typeOf, attrWireOf]
  | .structShape fields, .vobj es =>
    simp only [supportedShape, Bool.and_eq_true] at hs
    obtain ⟨hdk, hsf⟩ := hs
    simp only [canonicalValue] at hc
    have hnames := canonicalFields_names fields es hc
    have hdes : namesDistinct (es.map Prod.fst) = true := by
      rw [hnames]; exact hdk
    simp only [mapperWrite, isOptional, Bool.false_and, Bool.false_eq_true, if_false]
    rw [canonAttrWFields fields es es hsf hc (lookup_self_of_distinct es hdes)]
    simp [attrWireOf]
  | .arrayShape item, .varr xs =>
    simp only [supportedShape] at hs
    simp only [canonicalValue] at hc
    simp only [mapperWrite, isOptional, Bool.false_and, Bool.false_eq_true, if_false]
    rw [canonAttrWItems item xs hs (canonicalItems_mem item xs hc)]
    simp [attrWireOf]
  | .mapShape item, .vobj es =>
    simp only [supportedShape] at hs
    simp only [canonicalValue] at hc
    simp only [mapperWrite, isOptional, Bool.false_and, Bool.false_eq_true, if_false,
      jsEntries, exBindOk]
    rw [canonAttrWMapVals item es hs (canonicalMapEntries_mem item es hc)]
    simp [attrWireOf]
  | .stringShape, .vint _ | .stringShape, .vnan | .stringShape, .vbool _ | .stringShape, .vundef
  | .stringShape, .vnull | .stringShape, .vbuf _ | .stringShape, .vdate _ | .stringShape, .vobj _
  | .stringShape, .varr _ | .stringShape, .vset _ => simp [canonicalValue] at hc
  | .boolShape, .vstr _ | .boolShape, .vint _ | .boolShape, .vnan | .boolShape, .vundef
  | .boolShape, .vnull | .boolShape, .vbuf _ | .boolShape, .vdate _ | .boolShape, .vobj _
  | .boolShape, .varr _ | .boolShape, .vset _ => simp [canonicalValue] at hc
  | .numberShape, .vstr _ | .numberShape, .vnan | .numberShape, .vbool _ | .numberShape, .vundef
  | .numberShape, .vnull | .numberShape, .vbuf _ | .numberShape, .vdate _ | .numberShape, .vobj _
  | .numberShape, .varr _ | .numberShape, .vset _ => simp [canonicalValue] at hc
  | .enumShape _, .vint _ | .enumShape _, .vnan | .enumShape _, .vbool _ | .enumShape _, .vundef
  | .enumShape _, .vnull | .enumShape _, .vbuf _ | .enumShape _, .vdate _ | .enumShape _, .vobj _
  | .enumShape _, .varr _ | .enumShape _, .vset _ => simp [canonicalValue] at hc
  | .structShape _, .vstr _ | .structShape _, .vint _ | .structShape _, .vnan
  | .structShape _, .vbool _ | .structShape _, .vundef | .structShape _, .vnull
  | .structShape _, .vbuf _ | .structShape _, .vdate _ | .structShape _, .varr _
  | .structShape _, .vset _ => simp [canonicalValue] at hc
  | .arrayShape _, .vstr _ | .arrayShape _, .vint _ | .arrayShape _, .vnan
  | .arrayShape _, .vbool _ | .arrayShape _, .vundef | .arrayShape _, .vnull
  | .arrayShape _, .vbuf _ | .arrayShape _, .vdate _ | .arrayShape _, .vobj _
  | .arrayShape _, .vset _ => simp [canonicalValue] at hc
  | .mapShape _, .vstr _ | .mapShape _, .vint _ | .mapShape _, .vnan
  | .mapShape _, .vbool _ | .mapShape _, .vundef | .mapShape _, .vnull
  | .mapShape _, .vbuf _ | .mapShape _, .vdate _ | .mapShape _, .varr _
  | .mapShape _, .vset _ => simp [canonicalValue] at hc
  | .integerShape, _ | .binaryShape, _ | .timestampShape, _ | .anyShape, _
  | .nothingShape, _ | .neverShape, _ | .literalShape _ _, _ | .setShape _, _
  | .unionShape _, _ | .functionShape, _ => simp [supportedShape] at hs
termination_by (sizeOf s, 0, 0)

theorem canonAttrWFields (fields : List (String × Shape)) (es ES : List (String × JsVal))
    (hsf : supportedFields fields = true) (hc : canonicalFields fields es = true)
    (hag : ∀ p ∈ es, ES.lookup p.1 = some p.2) :
    mapperWriteFields fields (.vobj ES) = .ok (attrWireFields fields es) := by
  match fields, es with
  | [], [] => simp [mapperWriteFields, attrWireFields]
  | [], (m, v) :: es' => simp [canonicalFields] at hc
  | (n, s) :: fs, [] => simp [canonicalFields] at hc
  | (n, s) :: fs, (m, v) :: es' =>
    simp only [canonicalFields, Bool.and_eq_true, beq_iff_eq] at hc
    obtain ⟨⟨hnm, hcv⟩, hrest⟩ := hc
    simp only [supportedFields, Bool.and_eq_true] at hsf
    obtain ⟨hss, hsf'⟩ := hsf
    have hlook : ES.lookup n = some v := by
      rw [hnm]; exact hag (m, v) (List.mem_cons_self _ _)
    simp only [mapperWriteFields, jsGet, hlook, exBindOk]
    rw [canonical_isUndef_false hcv]
    simp only [Bool.false_eq_true, if_false]
    rw [canonAttrW s v hss hcv]
    simp only [exBindOk]
    rw [canonAttrWFields fs es' ES hsf' hrest fun p hp => hag p (List.mem_cons_of_mem _ hp)]
    simp [attrWireFields]
termination_by (sizeOf fields, 1, 0)

theorem canonAttrWItems (s : Shape) (xs : List JsVal)
    (hs : supportedShape s = true) (hc : ∀ x ∈ xs, canonicalValue s x = true) :
    mapperWriteItems s xs = .ok (xs.map fun x => attrWireOf s x) := by
  match xs with
  | [] => simp [mapperWriteItems]
  | x :: rest =>
    simp only [mapperWriteItems]
    rw [canonAttrW s x hs (hc x (List.mem_cons_self _ _))]
    simp only [exBindOk]
    rw [canonAttrWItems s rest hs fun y hy => hc y (List.mem_cons_of_mem _ hy)]
    simp
termination_by (sizeOf s, 1, sizeOf xs)

theorem canonAttrWMapVals (s : Shape) (es : List (String × JsVal))
    (hs : supportedShape s = true) (hc : ∀ p ∈ es, canonicalValue s p.2 = true) :
    mapperWriteMapValues s es = .ok (es.map fun p => (p.1, attrWireOf s p.2)) := by
  match es with
  | [] => simp [mapperWriteMapValues]
  | (n, x) :: rest =>
    simp only [mapperWriteMapValues]
    rw [canonAttrW s x hs (hc (n, x) (List.mem_cons_self _ _))]
    simp only [exBindOk]
    rw [canonAttrWMapVals s rest hs fun p hp => hc p (List.mem_cons_of_mem _ hp)]
    simp
termination_by (sizeOf s, 1, sizeOf es)

end

@[simp]
theorem jsGet_single (k : String) (w : JsVal) : jsGet (.vobj [(k, w)]) k = .ok w := by
  simp [jsGet, List.lookup]

theorem attrWireFields_names (fields : List (String × Shape)) (es : List (String × JsVal))
    (hc : canonicalFields fields es = true) :
    (attrWireFields fields es).map Prod.fst = fields.map Prod.fst := by
  match fields, es with
  | [], [] => simp [attrWireFields]
  | [], (m, v) :: es' => simp [canonicalFields] at hc
  | (n, s) :: fs, [] => simp [canonicalFields] at hc
  | (n, s) :: fs, (m, v) :: es' =>
    simp only [canonicalFields, Bool.and_eq_true] at hc
    simp only [attrWireFields, List.map_cons]
    rw [attrWireFields_names fs es' hc.2]

theorem attrWire_isUndef_false (s : Shape) (v : JsVal)
    (hs : supportedShape s = true) (hc : canonicalValue s v = true) :
    isUndef (attrWireOf s v) = false := by
  cases s
  case stringShape => simp [attrWireOf, isUndef]
  case enumShape vs => simp [attrWireOf, isUndef]
  case boolShape => simp [attrWireOf, isUndef]
  case numberShape => simp [attrWireOf, isUndef]
  case structShape fields => cases v <;> simp_all [canonicalValue, attrWireOf, isUndef]
  case arrayShape item => cases v <;> simp_all [canonicalValue, attrWireOf, isUndef]
  case mapShape item => cases v <;> simp_all [canonicalValue, attrWireOf, isUndef]
  all_goals simp [supportedShape] at hs

theorem mkAttrWireAgree (fields : List (String × Shape)) (es : List (String × JsVal))
    (WS : List (String × JsVal)) (hc : canonicalFields fields es = true)
    (hl : ∀ q ∈ attrWireFields fields es, WS.lookup q.1 = some q.2) :
    AttrWireAgree WS fields es := by
  match fields, es with
  | [], [] => trivial
  | [], (m, v) :: es' => simp [canonicalFields] at hc
  | (n, s) :: fs, [] => simp [canonicalFields] at hc
  | (n, s) :: fs, (m, v) :: es' =>
    simp only [canonicalFields, Bool.and_eq_true] at hc
    refine ⟨?_, ?_⟩
    · exact hl (n, attrWireOf s v) (by simp [attrWireFields])
    · exact mkAttrWireAgree fs es' WS hc.2 fun q hq =>
        hl q (by simp only [attrWireFields]; exact List.mem_cons_of_mem _ hq)

mutual

theorem canonAttrR (s : Shape) (v : JsVal)
    (hs : supportedShape s = true) (hc : canonicalValue s v = true) :
    mapperRead s (attrWireOf s v) = .ok v := by
  match s, v with
  | .stringShape, .vstr str =>
    simp [mapperRead, attrWireOf, isOptional, assertHasKey, assertIsType, typeOf]
  | .enumShape vs, .vstr str =>
    simp [mapperRead, attrWireOf, isOptional, assertHasKey, assertIsType, typeOf]
  | .boolShape, .vbool b =>
    simp [mapperRead, attrWireOf, isOptional, assertHasKey]
  | .numberShape, .vint n =>
    simp only [mapperRead, attrWireOf, isOptional, Bool.false_and, Bool.false_eq_true, if_false,
      assertHasKey, jsGet_single, exBindOk, jsNumToStr, jsDisplay]
    simp only [assertIsType, typeOf]
    rw [if_pos (by decide)]
    simp only [exBindOk, jsParseFloatOpt, jsParseIntOpt_intToString]
  | .structShape fields, .vobj es =>
    simp only [supportedShape, Bool.and_eq_true] at hs
    obtain ⟨hdk, hsf⟩ := hs
    simp only [canonicalValue] at hc
    have hwnames := attrWireFields_names fields es hc
    have hwdist : namesDistinct ((attrWireFields fields es).map Prod.fst) = true := by
      rw [hwnames]; exact hdk
    have hag := mkAttrWireAgree fields es (attrWireFields fields es) hc
      (lookup_self_of_distinct (attrWireFields fields es) hwdist)
    simp only [mapperRead, attrWireOf, isOptional, Bool.false_and, Bool.false_eq_true, if_false,
      assertHasKey, jsGet_single, exBindOk]
    rw [canonAttrRFields fields es (attrWireFields fields es) hsf hc hag]
    simp
  | .arrayShape item, .varr xs =>
    simp only [supportedShape] at hs
    simp only [canonicalValue] at hc
    simp only [mapperRead, attrWireOf, isOptional, Bool.false_and, Bool.false_eq_true, if_false,
      assertHasKey, jsGet_single, exBindOk]
    rw [canonAttrRItems item xs hs (canonicalItems_mem item xs hc)]
    simp
  | .mapShape item, .vobj es =>
    simp only [supportedShape] at hs
    simp only [canonicalValue] at hc
    simp only [mapperRead, attrWireOf, isOptional, Bool.false_and, Bool.false_eq_true, if_false,
      assertHasKey, jsGet_single, exBindOk, jsEntries]
    rw [canonAttrRMapVals item es hs (canonicalMapEntries_mem item es hc)]
    simp
  | .stringShape, .vint _ | .stringShape, .vnan | .stringShape, .vbool _ | .stringShape, .vundef
  | .stringShape, .vnull | .stringShape, .vbuf _ | .stringShape, .vdate _ | .stringShape, .vobj _
  | .stringShape, .varr _ | .stringShape, .vset _ => simp [canonicalValue] at hc
  | .boolShape, .vstr _ | .boolShape, .vint _ | .boolShape, .vnan | .boolShape, .vundef
  | .boolShape, .vnull | .boolShape, .vbuf _ | .boolShape, .vdate _ | .boolShape, .vobj _
  | .boolShape, .varr _ | .boolShape, .vset _ => simp [canonicalValue] at hc
  | .numberShape, .vstr _ | .numberShape, .vnan | .numberShape, .vbool _ | .numberShape, .vundef
  | .numberShape, .vnull | .numberShape, .vbuf _ | .numberShape, .vdate _ | .numberShape, .vobj _
  | .numberShape, .varr _ | .numberShape, .vset _ => simp [canonicalValue] at hc
  | .enumShape _, .vint _ | .enumShape _, .vnan | .enumShape _, .vbool _ | .enumShape _, .vundef
  | .enumShape _, .vnull | .enumShape _, .vbuf _ | .enumShape _, .vdate _ | .enumShape _, .vobj _
  | .enumShape _, .varr _ | .enumShape _, .vset _ => simp [canonicalValue] at hc
  | .structShape _, .vstr _ | .structShape _, .vint _ | .structShape _, .vnan
  | .structShape _, .vbool _ | .structShape _, .vundef | .structShape _, .vnull
  | .structShape _, .vbuf _ | .structShape _, .vdate _ | .structShape _, .varr _
  | .structShape _, .vset _ => simp [canonicalValue] at hc
  | .arrayShape _, .vstr _ | .arrayShape _, .vint _ | .arrayShape _, .vnan
  | .arrayShape _, .vbool _ | .arrayShape _, .vundef | .arrayShape _, .vnull
  | .arrayShape _, .vbuf _ | .arrayShape _, .vdate _ | .arrayShape _, .vobj _
  | .arrayShape _, .vset _ => simp [canonicalValue] at hc
  | .mapShape _, .vstr _ | .mapShape _, .vint _ | .mapShape _, .vnan
  | .mapShape _, .vbool _ | .mapShape _, .vundef | .mapShape _, .vnull
  | .mapShape _, .vbuf _ | .mapShape _, .vdate _ | .mapShape _, .varr _
  | .mapShape _, .vset _ => simp [canonicalValue] at hc
  | .integerShape, _ | .binaryShape, _ | .timestampShape, _ | .anyShape, _
  | .nothingShape, _ | .neverShape, _ | .literalShape _ _, _ | .setShape _, _
  | .unionShape _, _ | .functionShape, _ => simp [supportedShape] at hs
termination_by (sizeOf s, 0, 0)

theorem canonAttrRFields (fields : List (String × Shape)) (es WS : List (String × JsVal))
    (hsf : supportedFields fields = true) (hc : canonicalFields fields es = true)
    (hag : AttrWireAgree WS fields es) :
    mapperReadFields fields (.vobj WS) = .ok es := by
  match fields, es with
  | [], [] => simp [mapperReadFields]
  | [], (m, v) :: es' => simp [canonicalFields] at hc
  | (n, s) :: fs, [] => simp [canonicalFields] at hc
  | (n, s) :: fs, (m, v) :: es' =>
    simp only [canonicalFields, Bool.and_eq_true, beq_iff_eq] at hc
    obtain ⟨⟨hnm, hcv⟩, hrest⟩ := hc
    simp only [supportedFields, Bool.and_eq_true] at hsf
    obtain ⟨hss, hsf'⟩ := hsf
    simp only [AttrWireAgree] at hag
    obtain ⟨hlook, hag'⟩ := hag
    simp only [mapperReadFields, jsGet, hlook, exBindOk]
    rw [attrWire_isUndef_false s v hss hcv]
    simp only [Bool.false_eq_true, if_false]
    rw [canonAttrR s v hss hcv]
    simp only [exBindOk]
    rw [canonAttrRFields fs es' WS hsf' hrest hag']
    simp [hnm]
termination_by (sizeOf fields, 1, 0)

theorem canonAttrRItems (s : Shape) (xs : List JsVal)
    (hs : supportedShape s = true) (hc : ∀ x ∈ xs, canonicalValue s x = true) :
    mapperReadItems s (xs.map fun x => attrWireOf s x) = .ok xs := by
  match xs with
  | [] => simp [mapperReadItems]
  | x :: rest =>
    simp only [List.map_cons, mapperReadItems]
    rw [canonAttrR s x hs (hc x (List.mem_cons_self _ _))]
    simp only [exBindOk]
    rw [canonAttrRItems s rest hs fun y hy => hc y (List.mem_cons_of_mem _ hy)]
    simp
termination_by (sizeOf s, 1, sizeOf xs)

theorem canonAttrRMapVals (s : Shape) (es : List (String × JsVal))
    (hs : supportedShape s = true) (hc : ∀ p ∈ es, canonicalValue s p.2 = true) :
    mapperReadMapValues s (es.map fun p => (p.1, attrWireOf s p.2)) = .ok es := by
  match es with
  | [] => simp [mapperReadMapValues]
  | (n, x) :: rest =>
    simp only [List.map_cons, mapperReadMapValues]
    rw [canonAttrR s x hs (hc (n, x) (List.mem_cons_self _ _))]
    simp only [exBindOk]
    rw [canonAttrRMapVals s rest hs fun p hp => hc p (List.mem_cons_of_mem _ hp)]
    simp
termination_by (sizeOf s, 1, sizeOf es)

end

theorem jsonWireFields_names (fields : List (String × Shape)) (es : List (String × JsVal))
    (hc : canonicalFields fields es = true) :
    (jsonWireFields fields es).map Prod.fst = fields.map Prod.fst := by
  match fields, es with
  | [], [] => simp [jsonWireFields]
  | [], (m, v) :: es' => simp [canonicalFields] at hc
  | (n, s) :: fs, [] => simp [canonicalFields] at hc
  | (n, s) :: fs, (m, v) :: es' =>
    simp only [canonicalFields, Bool.and_eq_true] at hc
    simp only [jsonWireFields, List.map_cons]
    rw [jsonWireFields_names fs es' hc.2]

theorem mkJsonWireAgree (fields : List (String × Shape)) (es : List (String × JsVal))
    (WS : List (String × JsVal)) (hc : canonicalFields fields es = true)
    (hl : ∀ q ∈ jsonWireFields fields es, WS.lookup q.1 = some q.2) :
    JsonWireAgree WS fields es := by
  match fields, es with
  | [], [] => trivial
  | [], (m, v) :: es' => simp [canonicalFields] at hc
  | (n, s) :: fs, [] => simp [canonicalFields] at hc
  | (n, s) :: fs, (m, v) :: es' =>
    simp only [canonicalFields, Bool.and_eq_true] at hc
    refine ⟨?_, ?_⟩
    · exact hl (n, jsonWireOf s v) (by simp [jsonWireFields])
    · exact mkJsonWireAgree fs es' WS hc.2 fun q hq =>
        hl q (by simp only [jsonWireFields]; exact List.mem_cons_of_mem _ hq)

mutual

theorem canonJsonW (s : Shape) (v : JsVal)
    (hs : supportedShape s = true) (hc : canonicalValue s v = true) :
    jsonWrite s v = .ok (jsonWireOf s v) := by
  match s, v with
  | .stringShape, .vstr str => simp [jsonWrite, isOptional, jsonWireOf]
  | .enumShape vs, .vstr str => simp [jsonWrite, isOptional, jsonWireOf]
  | .boolShape, .vbool b => simp [jsonWrite, isOptional, jsonWireOf]
  | .numberShape, .vint n => simp [jsonWrite, isOptional, jsonWireOf]
  | .structShape fields, .vobj es =>
    simp only [supportedShape, Bool.and_eq_true] at hs
    obtain ⟨hdk, hsf⟩ := hs
    simp only [canonicalValue] at hc
    have hnames := canonicalFields_names fields es hc
    have hdes : namesDistinct (es.map Prod.fst) = true := by
      rw [hnames]; exact hdk
    simp only [jsonWrite, isOptional, Bool.false_and, Bool.false_eq_true, if_false]
    rw [canonJsonWFields fields es es hsf hc (lookup_self_of_distinct es hdes)]
    simp [jsonWireOf]
  | .arrayShape item, .varr xs =>
    simp only [supportedShape] at hs
    simp only [canonicalValue] at hc
    simp only [jsonWrite, isOptional, Bool.false_and, Bool.false_eq_true, if_false]
    rw [canonJsonWItems item xs hs (canonicalItems_mem item xs hc)]
    simp [jsonWireOf]
  | .mapShape item, .vobj es =>
    simp only [supportedShape] at hs
    simp only [canonicalValue] at hc
    simp only [jsonWrite, isOptional, Bool.false_and, Bool.false_eq_true, if_false,
      jsEntries, exBindOk]
    rw [canonJsonWMapVals item es hs (canonicalMapEntries_mem item es hc)]
    simp [jsonWireOf]
  | .stringShape, .vint _ | .stringShape, .vnan | .stringShape, .vbool _ | .stringShape, .vundef
  | .stringShape, .vnull | .stringShape, .vbuf _ | .stringShape, .vdate _ | .stringShape, .vobj _
  | .stringShape, .varr _ | .stringShape, .vset _ => simp [canonicalValue] at hc
  | .boolShape, .vstr _ | .boolShape, .vint _ | .boolShape, .vnan | .boolShape, .vundef
  | .boolShape, .vnull | .boolShape, .vbuf _ | .boolShape, .vdate _ | .boolShape, .vobj _
  | .boolShape, .varr _ | .boolShape, .vset _ => simp [canonicalValue] at hc
  | .numberShape, .vstr _ | .numberShape, .vnan | .numberShape, .vbool _ | .numberShape, .vundef
  | .numberShape, .vnull | .numberShape, .vbuf _ | .numberShape, .vdate _ | .numberShape, .vobj _
  | .numberShape, .varr _ | .numberShape, .vset _ => simp [canonicalValue] at hc
  | .enumShape _, .vint _ | .enumShape _, .vnan | .enumShape _, .vbool _ | .enumShape _, .vundef
  | .enumShape _, .vnull | .enumShape _, .vbuf _ | .enumShape _, .vdate _ | .enumShape _, .vobj _
  | .enumShape _, .varr _ | .enumShape _, .vset _ => simp [canonicalValue] at hc
  | .structShape _, .vstr _ | .structShape _, .vint _ | .structShape _, .vnan
  | .structShape _, .vbool _ | .structShape _, .vundef | .structShape _, .vnull
  | .structShape _, .vbuf _ | .structShape _, .vdate _ | .structShape _, .varr _
  | .structShape _, .vset _ => simp [canonicalValue] at hc
  | .arrayShape _, .vstr _ | .arrayShape _, .vint _ | .arrayShape _, .vnan
  | .arrayShape _, .vbool _ | .arrayShape _, .vundef | .arrayShape _, .vnull
  | .arrayShape _, .vbuf _ | .arrayShape _, .vdate _ | .arrayShape _, .vobj _
  | .arrayShape _, .vset _ => simp [canonicalValue] at hc
  | .mapShape _, .vstr _ | .mapShape _, .vint _ | .mapShape _, .vnan
  | .mapShape _, .vbool _ | .mapShape _, .vundef | .mapShape _, .vnull
  | .mapShape _, .vbuf _ | .mapShape _, .vdate _ | .mapShape _, .varr _
  | .mapShape _, .vset _ => simp [canonicalValue] at hc
  | .integerShape, _ | .binaryShape, _ | .timestampShape, _ | .anyShape, _
  | .nothingShape, _ | .neverShape, _ | .literalShape _ _, _ | .setShape _, _
  | .unionShape _, _ | .functionShape, _ => simp [supportedShape] at hs
termination_by (sizeOf s, 0, 0)

theorem canonJsonWFields (fields : List (String × Shape)) (es ES : List (String × JsVal))
    (hsf : supportedFields fields = true) (hc : canonicalFields fields es = true)
    (hag : ∀ p ∈ es, ES.lookup p.1 = some p.2) :
    jsonWriteFields fields (.vobj ES) = .ok (jsonWireFields fields es) := by
  match fields, es with
  | [], [] => simp [jsonWriteFields, jsonWireFields]
  | [], (m, v) :: es' => simp [canonicalFields] at hc
  | (n, s) :: fs, [] => simp [canonicalFields] at hc
  | (n, s) :: fs, (m, v) :: es' =>
    simp only [canonicalFields, Bool.and_eq_true, beq_iff_eq] at hc
    obtain ⟨⟨hnm, hcv⟩, hrest⟩ := hc
    simp only [supportedFields, Bool.and_eq_true] at hsf
    obtain ⟨hss, hsf'⟩ := hsf
    have hlook : ES.lookup n = some v := by
      rw [hnm]; exact hag (m, v) (List.mem_cons_self _ _)
    simp only [jsonWriteFields, jsGet, hlook, exBindOk]
    rw [canonJsonW s v hss hcv]
    simp only [exBindOk]
    rw [canonJsonWFields fs es' ES hsf' hrest fun p hp => hag p (List.mem_cons_of_mem _ hp)]
    simp [jsonWireFields]
termination_by (sizeOf fields, 1, 0)

theorem canonJsonWItems (s : Shape) (xs : List JsVal)
    (hs : supportedShape s = true) (hc : ∀ x ∈ xs, canonicalValue s x = true) :
    jsonWriteItems s xs = .ok (xs.map fun x => jsonWireOf s x) := by
  match xs with
  | [] => simp [jsonWriteItems]
  | x :: rest =>
    simp only [jsonWriteItems]
    rw [canonJsonW s x hs (hc x (List.mem_cons_self _ _))]
    simp only [exBindOk]
    rw [canonJsonWItems s rest hs fun y hy => hc y (List.mem_cons_of_mem _ hy)]
    simp
termination_by (sizeOf s, 1, sizeOf xs)

theorem canonJsonWMapVals (s : Shape) (es : List (String × JsVal))
    (hs : supportedShape s = true) (hc : ∀ p ∈ es, canonicalValue s p.2 = true) :
    jsonWriteMapValues s es = .ok (es.map fun p => (p.1, jsonWireOf s p.2)) := by
  match es with
  | [] => simp [jsonWriteMapValues]
  | (n, x) :: rest =>
    simp only [jsonWriteMapValues]
    rw [canonJsonW s x hs (hc (n, x) (List.mem_cons_self _ _))]
    simp only [exBindOk]
    rw [canonJsonWMapVals s rest hs fun p hp => hc p (List.mem_cons_of_mem _ hp)]
    simp
termination_by (sizeOf s, 1, sizeOf es)

end

mutual

theorem canonJsonR (s : Shape) (v : JsVal)
    (hs : supportedShape s = true) (hc : canonicalValue s v = true) :
    jsonRead s (jsonWireOf s v) = .ok v := by
  match s, v with
  | .stringShape, .vstr str => simp [jsonRead, isOptional, jsonWireOf, typeOf]
  | .enumShape vs, .vstr str =>
    simp only [canonicalValue] at hc
    simp only [jsonRead, isOptional, Bool.false_and, Bool.false_eq_true, if_false, jsonWireOf]
    rw [hc]
    simp
  | .boolShape, .vbool b => simp [jsonRead, isOptional, jsonWireOf, typeOf]
  | .numberShape, .vint n => simp [jsonRead, isOptional, jsonWireOf, typeOf]
  | .structShape fields, .vobj es =>
    simp only [supportedShape, Bool.and_eq_true] at hs
    obtain ⟨hdk, hsf⟩ := hs
    simp only [canonicalValue] at hc
    have hwnames := jsonWireFields_names fields es hc
    have hwdist : namesDistinct ((jsonWireFields fields es).map Prod.fst) = true := by
      rw [hwnames]; exact hdk
    have hag := mkJsonWireAgree fields es (jsonWireFields fields es) hc
      (lookup_self_of_distinct (jsonWireFields fields es) hwdist)
    simp only [jsonRead, isOptional, Bool.false_and, Bool.false_eq_true, if_false, jsonWireOf,
      typeOf]
    rw [if_pos (by decide)]
    rw [canonJsonRFields fields es (jsonWireFields fields es) hsf hc hag]
    simp
  | .arrayShape item, .varr xs =>
    simp only [supportedShape] at hs
    simp only [canonicalValue] at hc
    simp only [jsonRead, isOptional, Bool.false_and, Bool.false_eq_true, if_false, jsonWireOf]
    rw [canonJsonRItems item xs hs (canonicalItems_mem item xs hc)]
    simp
  | .mapShape item, .vobj es =>
    simp only [supportedShape] at hs
    simp only [canonicalValue] at hc
    simp only [jsonRead, isOptional, Bool.false_and, Bool.false_eq_true, if_false, jsonWireOf,
      jsEntries, exBindOk]
    rw [canonJsonRMapVals item es hs (canonicalMapEntries_mem item es hc)]
    simp
  | .stringShape, .vint _ | .stringShape, .vnan | .stringShape, .vbool _ | .stringShape, .vundef
  | .stringShape, .vnull | .stringShape, .vbuf _ | .stringShape, .vdate _ | .stringShape, .vobj _
  | .stringShape, .varr _ | .stringShape, .vset _ => simp [canonicalValue] at hc
  | .boolShape, .vstr _ | .boolShape, .vint _ | .boolShape, .vnan | .boolShape, .vundef
  | .boolShape, .vnull | .boolShape, .vbuf _ | .boolShape, .vdate _ | .boolShape, .vobj _
  | .boolShape, .varr _ | .boolShape, .vset _ => simp [canonicalValue] at hc
  | .numberShape, .vstr _ | .numberShape, .vnan | .numberShape, .vbool _ | .numberShape, .vundef
  | .numberShape, .vnull | .numberShape, .vbuf _ | .numberShape, .vdate _ | .numberShape, .vobj _
  | .numberShape, .varr _ | .numberShape, .vset _ => simp [canonicalValue] at hc
  | .enumShape _, .vint _ | .enumShape _, .vnan | .enumShape _, .vbool _ | .enumShape _, .vundef
  | .enumShape _, .vnull | .enumShape _, .vbuf _ | .enumShape _, .vdate _ | .enumShape _, .vobj _
  | .enumShape _, .varr _ | .enumShape _, .vset _ => simp [canonicalValue] at hc
  | .structShape _, .vstr _ | .structShape _, .vint _ | .structShape _, .vnan
  | .structShape _, .vbool _ | .structShape _, .vundef | .structShape _, .vnull
  | .structShape _, .vbuf _ | .structShape _, .vdate _ | .structShape _, .varr _
  | .structShape _, .vset _ => simp [canonicalValue] at hc
  | .arrayShape _, .vstr _ | .arrayShape _, .vint _ | .arrayShape _, .vnan
  | .arrayShape _, .vbool _ | .arrayShape _, .vundef | .arrayShape _, .vnull
  | .arrayShape _, .vbuf _ | .arrayShape _, .vdate _ | .arrayShape _, .vobj _
  | .arrayShape _, .vset _ => simp [canonicalValue] at hc
  | .mapShape _, .vstr _ | .mapShape _, .vint _ | .mapShape _, .vnan
  | .mapShape _, .vbool _ | .mapShape _, .vundef | .mapShape _, .vnull
  | .mapShape _, .vbuf _ | .mapShape _, .vdate _ | .mapShape _, .varr _
  | .mapShape _, .vset _ => simp [canonicalValue] at hc
  | .integerShape, _ | .binaryShape, _ | .timestampShape, _ | .anyShape, _
  | .nothingShape, _ | .neverShape, _ | .literalShape _ _, _ | .setShape _, _
  | .unionShape _, _ | .functionShape, _ => simp [supportedShape] at hs
termination_by (sizeOf s, 0, 0)

theorem canonJsonRFields (fields : List (String × Shape)) (es WS : List (String × JsVal))
    (hsf : supportedFields fields = true) (hc : canonicalFields fields es = true)
    (hag : JsonWireAgree WS fields es) :
    jsonReadFields fields (.vobj WS) = .ok es := by
  match fields, es with
  | [], [] => simp [jsonReadFields]
  | [], (m, v) :: es' => simp [canonicalFields] at hc
  | (n, s) :: fs, [] => simp [canonicalFields] at hc
  | (n, s) :: fs, (m, v) :: es' =>
    simp only [canonicalFields, Bool.and_eq_true, beq_iff_eq] at hc
    obtain ⟨⟨hnm, hcv⟩, hrest⟩ := hc
    simp only [supportedFields, Bool.and_eq_true] at hsf
    obtain ⟨hss, hsf'⟩ := hsf
    simp only [JsonWireAgree] at hag
    obtain ⟨hlook, hag'⟩ := hag
    simp only [jsonReadFields, jsGet, hlook, exBindOk]
    rw [canonJsonR s v hss hcv]
    simp only [exBindOk]
    rw [canonJsonRFields fs es' WS hsf' hrest hag']
    simp [hnm]
termination_by (sizeOf fields, 1, 0)

theorem canonJsonRItems (s : Shape) (xs : List JsVal)
    (hs : supportedShape s = true) (hc : ∀ x ∈ xs, canonicalValue s x = true) :
    jsonReadItems s (xs.map fun x => jsonWireOf s x) = .ok xs := by
  match xs with
  | [] => simp [jsonReadItems]
  | x :: rest =>
    simp only [List.map_cons, jsonReadItems]
    rw [canonJsonR s x hs (hc x (List.mem_cons_self _ _))]
    simp only [exBindOk]
    rw [canonJsonRItems s rest hs fun y hy => hc y (List.mem_cons_of_mem _ hy)]
    simp
termination_by (sizeOf s, 1, sizeOf xs)

theorem canonJsonRMapVals (s : Shape) (es : List (String × JsVal))
    (hs : supportedShape s = true) (hc : ∀ p ∈ es, canonicalValue s p.2 = true) :
    jsonReadMapValues s (es.map fun p => (p.1, jsonWireOf s p.2)) = .ok es := by
  match es with
  | [] => simp [jsonReadMapValues]
  | (n, x) :: rest =>
    simp only [List.map_cons, jsonReadMapValues]
    rw [canonJsonR s x hs (hc (n, x) (List.mem_cons_self _ _))]
    simp only [exBindOk]
    rw [canonJsonRMapVals s rest hs fun p hp => hc p (List.mem_cons_of_mem _ hp)]
    simp
termination_by (sizeOf s, 1, sizeOf es)

end

/-- Claim C2 (code bug): the attribute reader is supposed to fail with a
decode error naming the expected discriminant key when the wire value lacks
it, but assertHasKey constructs its Error without throwing, so the check
always passes: reading a Bool shape from a wire value carrying only an S key
succeeds and returns undefined to the caller instead of raising any error,
while the string reader only fails later through the unrelated type
assertion that names no key. -/
theorem claim2_missing_discriminant_not_rejected :
    assertHasKey "BOOL" (.vobj [("S", .vstr "x")]) = .ok () ∧
    mapperRead .boolShape (.vobj [("S", .vstr "x")]) = .ok .vundef ∧
    mapperRead .stringShape (.vobj [("BOOL", .vbool true)]) =
      .error "expected type string, but got: undefined" := by
  refine ⟨rfl, ?_, ?_⟩
  · simp [mapperRead, isOptional, assertHasKey, jsGet, List.lookup, objGet]
  · simp [mapperRead, isOptional, assertHasKey, jsGet, List.lookup, objGet, assertIsType, typeOf]

/-- Claim C3 (code bug): the compiled instance check of a Set shape is
supposed to accept a Set value all of whose elements conform, but the
setShape handler falls through to return false after its element walk, so
every Set value is rejected: a singleton string Set whose element conforms
to the item shape is rejected, while the same element passes the item check
and the analogous List value passes the array check. -/
theorem claim3_set_instance_check_always_false :
    isInstance (.setShape .stringShape) (.vset [.vstr "a"]) = .ok false ∧
    isInstance .stringShape (.vstr "a") = .ok true ∧
    isInstance (.arrayShape .stringShape) (.varr [.vstr "a"]) = .ok true := by
  refine ⟨?_, ?_, ?_⟩
  · simp [isInstance, isInstanceSetItems, typeOf]
  · simp [isInstance, typeOf]
  · simp [isInstance, isInstanceItemsAll, typeOf]

/-- Claim C4 (code bug): the compiled Struct equality is supposed to return
true exactly when the key cardinalities match and every field pair is equal
under the compiled field equality, but the key walk returns false outright
when a key holds undefined on both sides, even though the compiled field
equality calls that pair equal: a one-field struct value with an explicitly
undefined field compares unequal to itself while its field equality returns
true and the key lists coincide. -/
theorem claim4_struct_equality_undefined_fields :
    equalsOf (.structShape [("x", .stringShape)]) (.vobj [("x", .vundef)]) (.vobj [("x", .vundef)]) = .ok false ∧
    equalsOf .stringShape .vundef .vundef = .ok true ∧
    jsKeys (.vobj [("x", .vundef)]) = .ok ["x"] := by
  refine ⟨?_, ?_, ?_⟩
  · simp [equalsOf, jsKeys, jsEntries, equalsStructKeys, jsGetLoose, jsGet, List.lookup,
      objGet, isUndef]
  · simp [equalsOf, jsEq]
  · simp [jsKeys, jsEntries]

/-- Claim C1 (counterexample): a struct value carrying an extra key beyond
the declared fields is accepted by the structural instance check, but both
codecs drop the extra key on the round trip and the compiled equality then
rejects the pair on key cardinality, in either argument order. -/
theorem claim1_roundtrip_counterexample :
    isInstance (.structShape [("id", .stringShape)])
      (.vobj [("id", .vstr "a"), ("extra", .vstr "b")]) = .ok true ∧
    (mapperWrite (.structShape [("id", .stringShape)])
        (.vobj [("id", .vstr "a"), ("extra", .vstr "b")]) >>=
      mapperRead (.structShape [("id", .stringShape)])) = .ok (.vobj [("id", .vstr "a")]) ∧
    (jsonWrite (.structShape [("id", .stringShape)])
        (.vobj [("id", .vstr "a"), ("extra", .vstr "b")]) >>=
      jsonRead (.structShape [("id", .stringShape)])) = .ok (.vobj [("id", .vstr "a")]) ∧
    equalsOf (.structShape [("id", .stringShape)])
      (.vobj [("id", .vstr "a")]) (.vobj [("id", .vstr "a"), ("extra", .vstr "b")]) = .ok false ∧
    equalsOf (.structShape [("id", .stringShape)])
      (.vobj [("id", .vstr "a"), ("extra", .vstr "b")]) (.vobj [("id", .vstr "a")]) = .ok false := by
  refine ⟨?_, ?_, ?_, ?_, ?_⟩
  · simp [isInstance, isInstanceFields, typeOf, jsGet, List.lookup, objGet]
  · simp [mapperWrite, mapperRead, mapperWriteFields, mapperReadFields, isOptional,
      assertHasKey, jsGet, List.lookup, objGet, isUndef, assertIsType, typeOf]
  · simp [jsonWrite, jsonRead, jsonWriteFields, jsonReadFields, isOptional,
      jsGet, List.lookup, objGet, typeOf]
  · simp [equalsOf, jsKeys, jsEntries]
  · simp [equalsOf, jsKeys, jsEntries]

/-- Claim C1 (amended): for every Shape drawn from String, Enum, Bool,
Number, Struct, List and Map, and every canonical instance (struct values
carry exactly the declared fields in declaration order with no explicitly
undefined entries), the compiled instance check accepts the value and
reading back the written value returns exactly the value, for both the
attribute codec and the JSON codec; the read-back value is therefore
Equals-equal to the original, whose self-equality also holds. -/
theorem claim1_roundtrip_canonical (s : Shape) (v : JsVal)
    (hs : supportedShape s = true) (hc : canonicalValue s v = true) :
    isInstance s v = .ok true ∧
    (mapperWrite s v >>= mapperRead s) = .ok v ∧
    (jsonWrite s v >>= jsonRead s) = .ok v ∧
    equalsOf s v v = .ok true := by
  refine ⟨canonInst s v hs hc, ?_, ?_, canonEq s v hs hc⟩
  · rw [canonAttrW s v hs hc, exBindOk, canonAttrR s v hs hc]
  · rw [canonJsonW s v hs hc, exBindOk, canonJsonR s v hs hc]

theorem claim1_roundtrip_canonical_witness :
    supportedShape (.structShape [("id", .stringShape), ("tags", .arrayShape .stringShape)]) = true ∧
    canonicalValue (.structShape [("id", .stringShape), ("tags", .arrayShape .stringShape)])
      (.vobj [("id", .vstr "a"), ("tags", .varr [.vstr "x", .vstr "y"])]) = true ∧
    (isInstance (.structShape [("id", .stringShape), ("tags", .arrayShape .stringShape)])
      (.vobj [("id", .vstr "a"), ("tags", .varr [.vstr "x", .vstr "y"])]) = .ok true ∧
    (mapperWrite (.structShape [("id", .stringShape), ("tags", .arrayShape .stringShape)])
        (.vobj [("id", .vstr "a"), ("tags", .varr [.vstr "x", .vstr "y"])]) >>=
      mapperRead (.structShape [("id", .stringShape), ("tags", .arrayShape .stringShape)])) =
      .ok (.vobj [("id", .vstr "a"), ("tags", .varr [.vstr "x", .vstr "y"])]) ∧
    (jsonWrite (.structShape [("id", .stringShape), ("tags", .arrayShape .stringShape)])
        (.vobj [("id", .vstr "a"), ("tags", .varr [.vstr "x", .vstr "y"])]) >>=
      jsonRead (.structShape [("id", .stringShape), ("tags", .arrayShape .stringShape)])) =
      .ok (.vobj [("id", .vstr "a"), ("tags", .varr [.vstr "x", .vstr "y"])]) ∧
    equalsOf (.structShape [("id", .stringShape), ("tags", .arrayShape .stringShape)])
      (.vobj [("id", .vstr "a"), ("tags", .varr [.vstr "x", .vstr "y"])])
      (.vobj [("id", .vstr "a"), ("tags", .varr [.vstr "x", .vstr "y"])]) = .ok true) :=
  ⟨by simp [supportedShape, supportedFields, distinctKeys, namesDistinct],
   by simp [canonicalValue, canonicalFields, canonicalItems],
   claim1_roundtrip_canonical _ _
     (by simp [supportedShape, supportedFields, distinctKeys, namesDistinct])
     (by simp [canonicalValue, canonicalFields, canonicalItems])⟩

theorem mapperReadUnion_first_success (items : List Shape) (v : JsVal) (i : Nat)
    (hi : i < items.length) (w : JsVal)
    (hfail : ∀ j, (hj : j < items.length) → j < i → ∀ u, mapperRead (items.get ⟨j, hj⟩) v ≠ .ok u)
    (hok : mapperRead (items.get ⟨i, hi⟩) v = .ok w) :
    mapperReadUnion items v = .ok w := by
  match items, i with
  | s :: rest, 0 =>
    simp only [List.get] at hok
    rw [mapperReadUnion, hok]
  | s :: rest, i + 1 =>
    have h0 := hfail 0 (by simp) (by omega)
    rcases hs : mapperRead s v with e | u
    · rw [mapperReadUnion, hs]
      exact mapperReadUnion_first_success rest v i (by simpa using hi) w
        (fun j hj hji u => hfail (j + 1) (by simpa using hj) (by omega) u)
        (by simpa using hok)
    · exact absurd hs (h0 u)

theorem mapperReadUnion_exhausted (items : List Shape) (v : JsVal)
    (hfail : ∀ s ∈ items, ∀ u, mapperRead s v ≠ .ok u) :
    ∃ msg, mapperReadUnion items v = .error msg := by
  match items with
  | [] =>
    rcases hk : keysJoined v with e | ks
    · exact ⟨e, by rw [mapperReadUnion, hk]⟩
    · exact ⟨"failed to read DDB union type, but got " ++ ks, by rw [mapperReadUnion, hk]⟩
  | s :: rest =>
    rcases hs : mapperRead s v with e | u
    · obtain ⟨msg, hmsg⟩ := mapperReadUnion_exhausted rest v
        fun t ht u => hfail t (List.mem_cons_of_mem _ ht) u
      exact ⟨msg, by rw [mapperReadUnion, hs]; exact hmsg⟩
    · exact absurd hs (hfail s (List.mem_cons_self _ _) u)

/-- Claim C5: the attribute reader of a Union shape tries each candidate
variant reader in declaration order and returns the result of the first
reader that does not fail; when every candidate reader fails, the read
raises the terminal union failure. -/
theorem claim5_union_reader_first_success_or_exhaust :
    (∀ (items : List Shape) (v : JsVal) (i : Nat) (hi : i < items.length) (w : JsVal),
      (∀ j, (hj : j < items.length) → j < i → ∀ u, mapperRead (items.get ⟨j, hj⟩) v ≠ .ok u) →
      mapperRead (items.get ⟨i, hi⟩) v = .ok w →
      mapperReadUnion items v = .ok w) ∧
    (∀ (items : List Shape) (v : JsVal),
      (∀ s ∈ items, ∀ u, mapperRead s v ≠ .ok u) →
      ∃ msg, mapperReadUnion items v = .error msg) :=
  ⟨mapperReadUnion_first_success, mapperReadUnion_exhausted⟩

theorem claim5_union_reader_witness :
    mapperReadUnion [.stringShape, .boolShape] (.vobj [("BOOL", .vbool true)]) =
      .ok (.vbool true) := by
  apply claim5_union_reader_first_success_or_exhaust.1
    [.stringShape, .boolShape] (.vobj [("BOOL", .vbool true)]) 1 (by decide) (.vbool true)
  · intro j hj hj1 u
    have hj0 : j = 0 := by omega
    subst hj0
    simp [List.get, mapperRead, isOptional, assertHasKey, jsGet, List.lookup, objGet,
      assertIsType, typeOf]
  · simp [List.get, mapperRead, isOptional, assertHasKey, jsGet, List.lookup, objGet]

theorem validatorUnion_no_match (items : List Shape) (v : JsVal) (path : String)
    (h : ∀ s ∈ items, isInstance s v = .ok false) :
    validatorUnion items v path = .ok [] := by
  match items with
  | [] => rw [validatorUnion]
  | s :: rest =>
    rw [validatorUnion]
    rw [h s (List.mem_cons_self _ _)]
    simp only [exBindOk, Bool.false_eq_true, if_false]
    exact validatorUnion_no_match rest v path fun t ht => h t (List.mem_cons_of_mem _ ht)

theorem validatorUnion_first_match (pre : List Shape) (s : Shape) (post : List Shape)
    (v : JsVal) (path : String)
    (hpre : ∀ t ∈ pre, isInstance t v = .ok false)
    (hs : isInstance s v = .ok true) :
    validatorUnion (pre ++ s :: post) v path = validatorOf s v path := by
  match pre with
  | [] =>
    rw [List.nil_append, validatorUnion, hs]
    simp
  | t :: pre' =>
    rw [List.cons_append, validatorUnion, hpre t (List.mem_cons_self _ _)]
    simp only [exBindOk, Bool.false_eq_true, if_false]
    exact validatorUnion_first_match pre' s post v path
      (fun t' ht' => hpre t' (List.mem_cons_of_mem _ ht')) hs

/-- Claim C10: the compiled validator of a Union shape validates only
against the first variant whose instance check accepts the value, and when
no variant accepts the value it silently returns the empty diagnostic
list. -/
theorem claim10_union_validator_silent_when_no_variant :
    (∀ (items : List Shape) (v : JsVal) (path : String),
      (∀ s ∈ items, isInstance s v = .ok false) →
      validatorOf (.unionShape items) v path = .ok []) ∧
    (∀ (pre : List Shape) (s : Shape) (post : List Shape) (v : JsVal) (path : String),
      (∀ t ∈ pre, isInstance t v = .ok false) →
      isInstance s v = .ok true →
      validatorOf (.unionShape (pre ++ s :: post)) v path = validatorOf s v path) := by
  constructor
  · intro items v path h
    rw [validatorOf]
    exact validatorUnion_no_match items v path h
  · intro pre s post v path hpre hs
    rw [validatorOf]
    exact validatorUnion_first_match pre s post v path hpre hs

theorem claim10_union_validator_witness :
    validatorOf (.unionShape [.boolShape, .numberShape]) (.vstr "junk") "$" = .ok [] := by
  apply claim10_union_validator_silent_when_no_variant.1
  intro s hsm
  rcases List.mem_cons.mp hsm with h | h
  · subst h
    simp [isInstance, typeOf]
  · rcases List.mem_cons.mp h with h2 | h2
    · subst h2
      simp [isInstance, typeOf]
    · cases h2

theorem lookup_jsSet_self {α : Type} (l : List (String × α)) (k : String) (v : α) :
    (jsSet l k v).lookup k = some v := by
  induction l with
  | nil => simp [jsSet, List.lookup]
  | cons q rest ih =>
    obtain ⟨k', v'⟩ := q
    by_cases h : k' = k
    · subst h
      simp [jsSet, List.lookup]
    · have hb : (k' == k) = false := by simp [h]
      have hb2 : (k == k') = false := by
        simp
        exact fun he => h he.symm
      simp only [jsSet, hb, Bool.false_eq_true, if_false]
      rw [lookup_cons_ne k' v' (jsSet rest k v) k hb2]
      exact ih

theorem lookup_jsSet_ne {α : Type} (l : List (String × α)) (k : String) (v : α)
    (k' : String) (h : (k' == k) = false) :
    (jsSet l k v).lookup k' = l.lookup k' := by
  induction l with
  | nil =>
    simp only [jsSet]
    rw [lookup_cons_ne k v [] k' h]
  | cons q rest ih =>
    obtain ⟨k0, v0⟩ := q
    by_cases h0 : k0 = k
    · subst h0
      simp only [jsSet, beq_self_eq_true, if_pos]
      rw [lookup_cons_ne _ v rest k' h, lookup_cons_ne _ v0 rest k' h]
    · have hb : (k0 == k) = false := by simp [h0]
      simp only [jsSet, hb, Bool.false_eq_true, if_false]
      by_cases h1 : k' = k0
      · subst h1
        simp [List.lookup]
      · have hb1 : (k' == k0) = false := by simp [h1]
        rw [lookup_cons_ne k0 v0 (jsSet rest k v) k' hb1,
          lookup_cons_ne k0 v0 rest k' hb1]
        exact ih

theorem colon_tok_inj (a b : Nat) (h : (":" ++ natToString a) = (":" ++ natToString b)) :
    a = b := by
  apply natToString_injective
  have hd := congrArg String.data h
  rw [String.data_append, String.data_append] at hd
  exact String.ext (List.append_cancel_left hd)

theorem runAddValues_tokens (vals : List JsVal) (ns : Namespace) :
    (runAddValues vals ns).1 =
      (List.range vals.length).map fun i => ":" ++ natToString (ns.valuesCounter + i + 1) := by
  induction vals generalizing ns with
  | nil => simp [runAddValues]
  | cons x rest ih =>
    simp only [runAddValues, Namespace.addValue, List.length_cons]
    rw [List.range_succ_eq_map, List.map_cons, List.map_map]
    congr 1
    rw [ih]
    apply List.map_congr_left
    intro i _
    simp only [Function.comp]
    congr 2
    omega

theorem claim7_tokens_nodup (vals : List JsVal) (ns : Namespace) :
    ((runAddValues vals ns).1).Nodup := by
  rw [runAddValues_tokens]
  apply List.Nodup.map
  · intro a b hab
    have := colon_tok_inj (ns.valuesCounter + a + 1) (ns.valuesCounter + b + 1) hab
    omega
  · exact List.nodup_range _

/-- Claim C7: within one compilation batch, every literal operand receives a
fresh value-alias token from the monotonically increasing value counter, with
no deduplication: N operands yield the tokens numbered counter+1 through
counter+N (so :1 through :N from a fresh namespace), pairwise distinct even
when operand values repeat. -/
theorem claim7_value_alias_never_deduplicated (vals : List JsVal) (ns : Namespace) :
    (runAddValues vals ns).1 =
      ((List.range vals.length).map fun i => ":" ++ natToString (ns.valuesCounter + i + 1)) ∧
    ((runAddValues vals ns).1).Nodup :=
  ⟨runAddValues_tokens vals ns, claim7_tokens_nodup vals ns⟩

theorem runAddNames_fresh (names : List String) (ns : Namespace)
    (hfresh : ∀ n ∈ names, ns.aliasReverseLookup.lookup n = none)
    (hdist : namesDistinct names = true) :
    (runAddNames names ns).1 =
      (List.range names.length).map fun i => "#" ++ natToString (ns.namesCounter + i + 1) := by
  induction names generalizing ns with
  | nil => simp [runAddNames]
  | cons n rest ih =>
    simp only [namesDistinct, Bool.and_eq_true, Bool.not_eq_true] at hdist
    obtain ⟨hnot, hdrest⟩ := hdist
    have hn := hfresh n (List.mem_cons_self _ _)
    simp only [runAddNames, Namespace.addName, hn, List.length_cons]
    rw [List.range_succ_eq_map, List.map_cons, List.map_map]
    congr 1
    rw [ih]
    · apply List.map_congr_left
      intro i _
      simp only [Function.comp]
      congr 2
      omega
    · intro m hm
      have hmne : (m == n) = false := by
        rcases hb : (m == n) with _ | _
        · rfl
        · exfalso
          have : (rest.any fun x => x == n) = true := List.any_eq_true.mpr ⟨m, hm, hb⟩
          rw [this] at hnot
          cases hnot
      rw [lookup_jsSet_ne _ _ _ _ hmne]
      exact hfresh m (List.mem_cons_of_mem _ hm)
    · exact hdrest

/-- Claim C6: requesting a name alias for the same field path twice within
one compilation yields the identical token and leaves the namespace
unchanged, and a batch of distinct field paths receives the fresh tokens
numbered 1 through N in order from the monotonically increasing name
counter. -/
theorem claim6_name_alias_idempotent_and_fresh :
    (∀ (ns : Namespace) (n : String), ((ns.addName n).2).addName n = ns.addName n) ∧
    (∀ names : List String, namesDistinct names = true →
      (runAddNames names Namespace.empty).1 =
        (List.range names.length).map fun i => "#" ++ natToString (i + 1)) := by
  constructor
  · intro ns n
    rcases h0 : ns.aliasReverseLookup.lookup n with _ | tok
    · simp [Namespace.addName, h0, lookup_jsSet_self]
    · simp [Namespace.addName, h0]
  · intro names hdist
    have := runAddNames_fresh names Namespace.empty
      (fun n _ => by simp [Namespace.empty, List.lookup]) hdist
    rw [this]
    apply List.map_congr_left
    intro i _
    congr 2
    simp [Namespace.empty]

theorem claim6_name_alias_witness :
    ((Namespace.empty.addName "direction").2).addName "direction" =
      Namespace.empty.addName "direction" ∧
    (runAddNames ["direction", "id"] Namespace.empty).1 =
      (List.range 2).map fun i => "#" ++ natToString (i + 1) :=
  ⟨claim6_name_alias_idempotent_and_fresh.1 Namespace.empty "direction",
   claim6_name_alias_idempotent_and_fresh.2 ["direction", "id"] (by decide)⟩

theorem lookup_none_of_not_mem_keys {α : Type} (l : List (String × α)) (k : String)
    (h : k ∉ l.map Prod.fst) : l.lookup k = none := by
  rcases hl : l.lookup k with _ | v
  · rfl
  · exact absurd (List.mem_map_of_mem Prod.fst (lookup_mem l k v hl)) h

theorem jsSet_keys_replace {α : Type} (l : List (String × α)) (k : String) (v : α)
    (h : ∃ w, l.lookup k = some w) :
    (jsSet l k v).map Prod.fst = l.map Prod.fst := by
  induction l with
  | nil => obtain ⟨w, hw⟩ := h; cases hw
  | cons q rest ih =>
    obtain ⟨k0, v0⟩ := q
    by_cases h0 : k0 = k
    · subst h0
      simp [jsSet]
    · have hb : (k0 == k) = false := by simp [h0]
      have hb2 : (k == k0) = false := by
        simp
        exact fun he => h0 he.symm
      simp only [jsSet, hb, Bool.false_eq_true, if_false, List.map_cons]
      obtain ⟨w, hw⟩ := h
      rw [lookup_cons_ne k0 v0 rest k hb2] at hw
      rw [ih ⟨w, hw⟩]

theorem jsSet_keys_append {α : Type} (l : List (String × α)) (k : String) (v : α)
    (h : l.lookup k = none) :
    (jsSet l k v).map Prod.fst = l.map Prod.fst ++ [k] := by
  induction l with
  | nil => simp [jsSet]
  | cons q rest ih =>
    obtain ⟨k0, v0⟩ := q
    by_cases h0 : k0 = k
    · subst h0
      simp [List.lookup] at h
    · have hb : (k0 == k) = false := by simp [h0]
      have hb2 : (k == k0) = false := by
        simp
        exact fun he => h0 he.symm
      simp only [jsSet, hb, Bool.false_eq_true, if_false, List.map_cons]
      rw [lookup_cons_ne k0 v0 rest k hb2] at h
      rw [ih h]
      rfl

theorem namesDistinct_snoc (l : List String) (m : String)
    (hd : namesDistinct l = true) (hm : m ∉ l) :
    namesDistinct (l ++ [m]) = true := by
  induction l with
  | nil => simp [namesDistinct]
  | cons n rest ih =>
    simp only [namesDistinct, Bool.and_eq_true, Bool.not_eq_true] at hd
    obtain ⟨hnot, hrest⟩ := hd
    have hmn : m ≠ n := by
      intro he
      exact hm (by rw [he]; exact List.mem_cons_self _ _)
    simp only [List.cons_append, namesDistinct, Bool.and_eq_true, Bool.not_eq_true]
    constructor
    · have h1 : (rest.any fun x => x == n) = false := by
        simpa using hnot
      have h2 : (m == n) = false := by simp [hmn]
      simp [List.any_append, h1, h2]
    · exact ih hrest fun hc => hm (List.mem_cons_of_mem _ hc)

theorem mergeEntries_nodup (bEs aEs : List (String × MetaVal))
    (ha : namesDistinct (aEs.map Prod.fst) = true) :
    namesDistinct ((mergeEntries aEs bEs).map Prod.fst) = true := by
  match bEs with
  | [] => rw [mergeEntries]; exact ha
  | (k, v) :: rest =>
    rw [mergeEntries]
    rcases h : aEs.lookup k with _ | old
    · have hkeys := jsSet_keys_append aEs k v h
      have hnotmem : k ∉ aEs.map Prod.fst := by
        intro hmem
        obtain ⟨w, hw⟩ := lookup_isSome_of_mem_keys aEs k hmem
        rw [hw] at h
        cases h
      exact mergeEntries_nodup rest (jsSet aEs k v)
        (by rw [hkeys]; exact namesDistinct_snoc _ k ha hnotmem)
    · have hkeys := jsSet_keys_replace aEs k (mergeMetadataValue old v) ⟨old, h⟩
      exact mergeEntries_nodup rest (jsSet aEs k (mergeMetadataValue old v))
        (by rw [hkeys]; exact ha)

theorem mergeEntries_lookup (bEs aEs : List (String × MetaVal)) (k : String)
    (hb : namesDistinct (bEs.map Prod.fst) = true) :
    (mergeEntries aEs bEs).lookup k =
      match bEs.lookup k with
      | some vb =>
        (match aEs.lookup k with
          | some va => some (mergeMetadataValue va vb)
          | none => some vb)
      | none => aEs.lookup k := by
  match bEs with
  | [] => rw [mergeEntries]; rfl
  | (k0, v0) :: rest =>
    simp only [List.map_cons, namesDistinct, Bool.and_eq_true, Bool.not_eq_true] at hb
    obtain ⟨hnot, hrest⟩ := hb
    rw [mergeEntries]
    by_cases hk : k = k0
    · subst hk
      have hrnone : rest.lookup k = none := by
        apply lookup_none_of_not_mem_keys
        intro hmem
        have : ((rest.map Prod.fst).any fun m => m == k) = true :=
          List.any_eq_true.mpr ⟨k, hmem, by simp⟩
        rw [this] at hnot
        cases hnot
      have hhead : ((k, v0) :: rest).lookup k = some v0 := by
        simp [List.lookup]
      rcases ha : aEs.lookup k with _ | old
      · rw [mergeEntries_lookup rest (jsSet aEs k v0) k hrest, hrnone, hhead]
        show List.lookup k (jsSet aEs k v0) = some v0
        exact lookup_jsSet_self aEs k v0
      · rw [mergeEntries_lookup rest (jsSet aEs k (mergeMetadataValue old v0)) k hrest,
          hrnone, hhead]
        show List.lookup k (jsSet aEs k (mergeMetadataValue old v0)) =
          some (mergeMetadataValue old v0)
        exact lookup_jsSet_self aEs k (mergeMetadataValue old v0)
    · have hbk : (k == k0) = false := by simp [hk]
      have htail : ((k0, v0) :: rest).lookup k = rest.lookup k :=
        lookup_cons_ne k0 v0 rest k hbk
      rw [htail]
      rcases ha : aEs.lookup k0 with _ | old
      · rw [mergeEntries_lookup rest (jsSet aEs k0 v0) k hrest]
        rw [lookup_jsSet_ne aEs k0 v0 k hbk]
      · rw [mergeEntries_lookup rest (jsSet aEs k0 (mergeMetadataValue old v0)) k hrest]
        rw [lookup_jsSet_ne aEs k0 (mergeMetadataValue old v0) k hbk]

theorem jsSpread_lookup (ups base : List (String × MetaVal)) (k : String)
    (hu : namesDistinct (ups.map Prod.fst) = true) :
    (jsSpread base ups).lookup k =
      match ups.lookup k with
      | some v => some v
      | none => base.lookup k := by
  match ups with
  | [] => rw [jsSpread]; rfl
  | (k0, v0) :: rest =>
    simp only [List.map_cons, namesDistinct, Bool.and_eq_true, Bool.not_eq_true] at hu
    obtain ⟨hnot, hrest⟩ := hu
    rw [jsSpread]
    by_cases hk : k = k0
    · subst hk
      have hrnone : rest.lookup k = none := by
        apply lookup_none_of_not_mem_keys
        intro hmem
        have : ((rest.map Prod.fst).any fun m => m == k) = true :=
          List.any_eq_true.mpr ⟨k, hmem, by simp⟩
        rw [this] at hnot
        cases hnot
      rw [jsSpread_lookup rest (jsSet base k v0) k hrest, hrnone]
      have hhead : ((k, v0) :: rest).lookup k = some v0 := by
        simp [List.lookup]
      rw [hhead]
      exact lookup_jsSet_self base k v0
    · have hbk : (k == k0) = false := by simp [hk]
      rw [jsSpread_lookup rest (jsSet base k0 v0) k hrest]
      rw [lookup_jsSet_ne base k0 v0 k hbk]
      rw [lookup_cons_ne k0 v0 rest k hbk]

/-- Claim C9: merging constraint-annotation metadata concatenates two
array-valued entries (new entries first, as the source concatenates onto the
update), deep-merges two annotation objects key by key with the same rule
applied recursively to keys present on both sides, and overwrites an entry
with the new value whenever the new value is a scalar. -/
theorem claim9_metadata_merge_rule :
    (∀ as bs : List MetaVal,
      mergeMetadataValue (.marr as) (.marr bs) = .marr (bs ++ as)) ∧
    (∀ (aFs bFs : List (String × MetaVal)) (k : String),
      namesDistinct (aFs.map Prod.fst) = true →
      namesDistinct (bFs.map Prod.fst) = true →
      (mobjFields (mergeMetadataValue (.mobj aFs) (.mobj bFs))).lookup k =
        match aFs.lookup k, bFs.lookup k with
        | some va, some vb => some (mergeMetadataValue va vb)
        | some va, none => some va
        | none, some vb => some vb
        | none, none => none) ∧
    (∀ (a : MetaVal) (str : String), mergeMetadataValue a (.mstr str) = .mstr str) ∧
    (∀ (a : MetaVal) (n : Int), mergeMetadataValue a (.mnum n) = .mnum n) ∧
    (∀ (a : MetaVal) (b : Bool), mergeMetadataValue a (.mbool b) = .mbool b) := by
  refine ⟨?_, ?_, ?_, ?_, ?_⟩
  · intro as bs
    rw [mergeMetadataValue]
  · intro aFs bFs k ha hb
    rw [mergeMetadataValue]
    simp only [mobjFields]
    rw [jsSpread_lookup (mergeEntries aFs bFs) bFs k (mergeEntries_nodup bFs aFs ha)]
    rw [mergeEntries_lookup bFs aFs k hb]
    rcases hka : aFs.lookup k with _ | va <;> rcases hkb : bFs.lookup k with _ | vb <;> rfl
  · intro a str
    cases a <;> (rw [mergeMetadataValue] <;> simp)
  · intro a n
    cases a <;> (rw [mergeMetadataValue] <;> simp)
  · intro a b
    cases a <;> (rw [mergeMetadataValue] <;> simp)

theorem claim9_metadata_merge_witness :
    (mobjFields (mergeMetadataValue
        (.mobj [("validator", .marr [.mstr "old"]), ("doc", .mstr "a")])
        (.mobj [("validator", .marr [.mstr "new"]), ("min", .mnum 3)]))).lookup "validator" =
      match ([("validator", MetaVal.marr [.mstr "old"]), ("doc", .mstr "a")]).lookup "validator",
        ([("validator", MetaVal.marr [.mstr "new"]), ("min", .mnum 3)]).lookup "validator" with
      | some va, some vb => some (mergeMetadataValue va vb)
      | some va, none => some va
      | none, some vb => some vb
      | none, none => none :=
  claim9_metadata_merge_rule.2.1
    [("validator", .marr [.mstr "old"]), ("doc", .mstr "a")]
    [("validator", .marr [.mstr "new"]), ("min", .mnum 3)]
    "validator" (by decide) (by decide)

@[simp]
theorem jsGet_obj (es : List (String × JsVal)) (k : String) :
    jsGet (.vobj es) k = .ok (objGet es k) := rfl

theorem pathField_data (path n : String) :
    (pathField path n).data =
      path.data ++ ('[' :: Char.ofNat 39 :: (n.data ++ [Char.ofNat 39, ']'])) := by
  simp only [pathField, pathQuote, String.data_append]
  simp only [show (String.singleton (Char.ofNat 39)).data = [Char.ofNat 39] from rfl]
  simp [List.append_assoc]

theorem pathField_inj_right (path na nb : String) (hne : na ≠ nb) :
    pathField path na ≠ pathField path nb := by
  intro heq
  have hd := congrArg String.data heq
  rw [pathField_data, pathField_data] at hd
  have h1 := List.append_cancel_left hd
  simp only [List.cons.injEq, true_and] at h1
  have h3 := List.append_cancel_right h1
  exact hne (String.ext h3)

/-- Claim C8: the compiled Struct validator never short-circuits: for a
two-field struct the diagnostics are exactly the concatenation, in
field-declaration order, of each field validation at its own nested path,
and the two nested paths are distinct whenever the field names are. -/
theorem claim8_struct_validator_accumulates (na : String) (sa : Shape) (nb : String) (sb : Shape)
    (es : List (String × JsVal)) (path : String) (hne : na ≠ nb) :
    validatorOf (.structShape [(na, sa), (nb, sb)]) (.vobj es) path =
      (do
        let e1 ← validatorOf sa (objGet es na) (pathField path na)
        let e2 ← validatorOf sb (objGet es nb) (pathField path nb)
        Except.ok (e1 ++ e2)) ∧
    pathField path na ≠ pathField path nb := by
  constructor
  · rw [validatorOf]
    simp only [validatorFields, jsGet_obj, exBindOk]
    rcases h1 : validatorOf sa (objGet es na) (pathField path na) with e | l1
    · simp only [h1, exBindErr]
    · simp only [h1, exBindOk]
      rcases h2 : validatorOf sb (objGet es nb) (pathField path nb) with e | l2
      · simp only [h2, exBindErr]
      · simp only [h2, exBindOk]
        simp
  · exact pathField_inj_right path na nb hne

theorem claim8_struct_validator_witness :
    (validatorOf (.structShape [("a", .enumShape ["X"]), ("b", .enumShape ["Y"])])
        (.vobj [("a", .vstr "Z"), ("b", .vstr "W")]) "$" =
      (do
        let e1 ← validatorOf (.enumShape ["X"])
          (objGet [("a", .vstr "Z"), ("b", .vstr "W")] "a") (pathField "$" "a")
        let e2 ← validatorOf (.enumShape ["Y"])
          (objGet [("a", .vstr "Z"), ("b", .vstr "W")] "b") (pathField "$" "b")
        Except.ok (e1 ++ e2)) ∧
      pathField "$" "a" ≠ pathField "$" "b") ∧
    validatorOf (.structShape [("a", .enumShape ["X"]), ("b", .enumShape ["Y"])])
        (.vobj [("a", .vstr "Z"), ("b", .vstr "W")]) "$" =
      .ok [⟨"expected one of (X), got Z", pathField "$" "a"⟩,
           ⟨"expected one of (Y), got W", pathField "$" "b"⟩] := by
  constructor
  · exact claim8_struct_validator_accumulates "a" (.enumShape ["X"]) "b" (.enumShape ["Y"])
      [("a", .vstr "Z"), ("b", .vstr "W")] "$" (by decide)
  · simp [validatorOf, validatorFields, jsGet_obj, objGet, List.lookup, typeOf, jsDisplay,
      pathField, pathQuote]
    exact ⟨rfl, rfl⟩
